import Mathlib

/-!
# raytracing: the render coordinator of `main.c`

A shallow embedding of `src/main.c` (`write_to_ppm`, `diff_in_second`,
`render_scene`, `main`) and of the interfaces it calls, followed by the
properties of the row partition, the option parsing, the barrier protocol,
the image output and the time difference.

Conventions.
* A C `int` is an `Int` kept in `[-2^31, 2^31)`: every arithmetic result is
  passed through `wrapInt32`, so that an overflow wraps around as it does on
  the machine.  `long`, `time_t` are 64 bit (`wrapInt64`), `size_t` is 64 bit
  unsigned (`toSizeT`).
* Library functions (`getopt_long`, `strtol`, `printf`, `malloc`, the
  `pthread_*` calls) are not code of the program: `strtol` and `%d` follow
  ISO C, `getopt_long` is the list of its returns, the others succeed or
  fail as the environment `Env` says.
* A loop is a function with a fuel argument which also reports whether the
  loop has exited.
* A thread is described by the list of calls it makes, in program order.
-/

namespace Raytracing

/-! ## Machine integers -/

/-- Value of a C `int` holding the mathematical result `x` (two's complement, 32 bit). -/
def wrapInt32 (x : Int) : Int := (x + 2147483648) % 4294967296 - 2147483648

/-- Value of a C `long` / `time_t` holding the mathematical result `x` (64 bit). -/
def wrapInt64 (x : Int) : Int :=
  (x + 9223372036854775808) % 18446744073709551616 - 9223372036854775808

/-- Conversion of a C integer to `size_t` (64 bit unsigned). -/
def toSizeT (x : Int) : Nat := (x % 18446744073709551616).toNat

/-- The macro `ROWS`: `#define ROWS 512`. -/
def ROWS : Int := 512

/-- The macro `COLS`: `#define COLS 512`. -/
def COLS : Int := 512

/-! ## `render_scene` -/

/-- The arguments of one call
`raytracing(pixels, background, rectangulars, spheres, lights, view,
            width, height, left, top, right, bottom)`
that vary between calls (the buffer and the scene are the same in every call). -/
structure RaytracingCall where
  width : Int
  height : Int
  left : Int
  top : Int
  right : Int
  bottom : Int
deriving DecidableEq, Repr

/-- What a thread does, as far as the coordinator is concerned. -/
inductive Event where
  | out (text : String)
  | err (text : String)
  | malloc (size : Nat)
  | barrier_init (n : Int)
  | pthread_create (thread_index nr_threads : Int)
  | barrier_cross
  | raytracing (call : RaytracingCall)
  | clock_gettime
  | pthread_join (thread_index : Int)
  | fopen (name : String)
  | file_write (bytes : List Nat)
  | fclose
  | free
  | out_execution_time
deriving DecidableEq, Repr

/-- The loop of `render_scene`,
`for (i = thread_index; i < ROWS; i += nr_threads) raytracing(.., ROWS, COLS, 0, i, COLS-1, i);`
with the loop bound as a parameter `rows` (it is `ROWS` in the program).
The result is the list of calls made within `fuel` evaluations of the loop
condition and whether the loop has exited. -/
def render_loop (rows nr_threads : Int) : Nat → Int → List RaytracingCall × Bool
  | 0, _ => ([], false)
  | fuel + 1, i =>
    if i < rows then
      let rest := render_loop rows nr_threads fuel (wrapInt32 (i + nr_threads))
      (⟨rows, COLS, 0, i, COLS - 1, i⟩ :: rest.1, rest.2)
    else ([], true)

/-- The part of `thread_data` that `render_scene` reads besides the shared
buffer, scene and barrier handles. -/
structure thread_data where
  thread_index : Int
  nr_threads : Int
deriving DecidableEq, Repr

/-- The function `render_scene`: cross the barrier, then run the loop. -/
def render_scene (tdata : thread_data) (fuel : Nat) : List Event × Bool :=
  let r := render_loop ROWS tdata.nr_threads fuel tdata.thread_index
  (Event.barrier_cross :: r.1.map Event.raytracing, r.2)

/-- The rows (the `top` argument) of the calls of the loop, in order. -/
def loop_rows (rows nr_threads : Int) (fuel : Nat) (i : Int) : List Int :=
  (render_loop rows nr_threads fuel i).1.map RaytracingCall.top

/-- The one-row call the loop makes for row `i`. -/
def row_call (rows i : Int) : RaytracingCall := ⟨rows, COLS, 0, i, COLS - 1, i⟩

/-- Number of rows `i, i+T, i+2T, ...` below `H`: `ceil((H - i) / T)`, `0` when `H ≤ i`. -/
def row_count (H T i : Nat) : Nat := (H - i + T - 1) / T

/-! ## The pixel buffer and `raytracing` -/

/-- The memory `pixels` points to: byte offset to byte value. -/
abbrev Buffer := Nat → Nat

/-- Modelled from the spec: `raytracing.c` is absent.  The pixel buffer is
row-major with three bytes per pixel, so byte `idx` belongs to the pixel in
column `(idx / 3) % width` of row `(idx / 3) / width`; the region of a call
is made of the bytes of the pixels with `left ≤ column ≤ right` and
`top ≤ row ≤ bottom` (an inclusive rectangle). -/
def in_region (call : RaytracingCall) (idx : Nat) : Bool :=
  let p : Int := (idx : Int) / 3
  decide (call.left ≤ p % call.width ∧ p % call.width ≤ call.right ∧
    call.top ≤ p / call.width ∧ p / call.width ≤ call.bottom)

/-- The calls of a list applied to the buffer one after the other, first call
first; `rt scene call` is `raytracing` as a buffer transformer. -/
def run_calls {Scene : Type} (rt : Scene → RaytracingCall → Buffer → Buffer) (scene : Scene)
    (calls : List RaytracingCall) (pixels : Buffer) : Buffer :=
  calls.foldl (fun buf call => rt scene call buf) pixels

/-- The calls of worker `i` of `T`: its loop run with fuel 513, which is
enough for the loop to exit whenever `1 ≤ T ≤ 2^31 - 512`. -/
def worker_calls (T : Nat) (i : Nat) : List RaytracingCall :=
  (render_loop ROWS T 513 i).1

/-- The calls of all the workers `0, .., T-1` that `main` spawns, worker by worker. -/
def all_calls (T : Nat) : List RaytracingCall :=
  (List.range T).flatMap (worker_calls T)

/-- A `raytracing` that stores `colour scene row offset` in every byte of its
region: one function of the kind the buffer properties quantify over. -/
def paint {Scene : Type} (colour : Scene → Int → Nat → Nat) (scene : Scene)
    (call : RaytracingCall) (pixels : Buffer) : Buffer :=
  fun idx => if in_region call idx then colour scene call.top idx else pixels idx

/-! ## `strtol` -/

/-- The constant `LONG_MAX` of a 64 bit `long`. -/
def LONG_MAX : Int := 9223372036854775807

/-- The constant `LONG_MIN` of a 64 bit `long`. -/
def LONG_MIN : Int := -9223372036854775808

/-- The white-space characters of the "C" locale: space, `\t \n \v \f \r`. -/
def isspace (c : Char) : Bool := c.toNat = 32 || (9 ≤ c.toNat && c.toNat ≤ 13)

/-- The decimal digits. -/
def isdigit (c : Char) : Bool := 48 ≤ c.toNat && c.toNat ≤ 57

/-- The number a run of decimal digits denotes. -/
def digits_value (digits : List Char) : Int :=
  digits.foldl (fun acc c => 10 * acc + ((c.toNat : Int) - 48)) 0

/-- What `strtol(nptr, &endptr, 10)` leaves behind: the returned value, the
offset `endptr - nptr`, and whether `errno` is `ERANGE` (it was `0` before). -/
structure StrtolResult where
  value : Int
  endptr : Nat
  erange : Bool
deriving DecidableEq, Repr

/-- The library function `strtol` in base 10 (ISO C, "C" locale): skip white
space, take an optional sign, convert the longest run of digits; with no
digit nothing is converted (`endptr = nptr`, value `0`); a value out of the
range of `long` is clamped and `errno` set to `ERANGE`. -/
def strtol (nptr : List Char) : StrtolResult :=
  let s1 := nptr.dropWhile isspace
  let neg : Bool := s1.head? = some '-'
  let s2 := if s1.head? = some '-' ∨ s1.head? = some '+' then s1.tail else s1
  let digits := s2.takeWhile isdigit
  if digits = [] then ⟨0, 0, false⟩
  else
    let v : Int := if neg then -digits_value digits else digits_value digits
    let endptr := nptr.length - (s2.length - digits.length)
    if LONG_MAX < v then ⟨LONG_MAX, endptr, true⟩
    else if v < LONG_MIN then ⟨LONG_MIN, endptr, true⟩
    else ⟨v, endptr, false⟩

/-! ## `write_to_ppm` -/

/-- The characters `printf("%d", x)` produces. -/
def fmt_d (x : Int) : List Char :=
  if x < 0 then '-' :: Nat.toDigits 10 x.natAbs else Nat.toDigits 10 x.toNat

/-- The bytes of a text. -/
def text_bytes (text : List Char) : List Nat := text.map Char.toNat

/-- An allocated block: its size in bytes and its contents. -/
structure Memory where
  size : Nat
  data : Buffer

/-- The header `fprintf(outfile, "P6\n%d %d\n%d\n", width, height, 255)` writes. -/
def ppm_header (width height : Int) : List Nat :=
  text_bytes ("P6\n".data ++ fmt_d width ++ " ".data ++ fmt_d height ++ "\n".data ++
    fmt_d 255 ++ "\n".data)

/-- The function `write_to_ppm` on an open stream whose writes succeed: the
bytes appended to the stream.  `height * width * 3` is computed in `int` and
converted to `size_t`; `fwrite` reading past the end of the block is
undefined (`none`). -/
def write_to_ppm (pixels : Memory) (width height : Int) : Option (List Nat) :=
  let count := toSizeT (wrapInt32 (wrapInt32 (height * width) * 3))
  if count ≤ pixels.size then
    some (ppm_header width height ++ (List.range count).map pixels.data)
  else none

/-! ## `diff_in_second` -/

/-- The type `struct timespec`: `time_t tv_sec; long tv_nsec;`. -/
structure timespec where
  tv_sec : Int
  tv_nsec : Int
deriving DecidableEq, Repr

/-- The function `diff_in_second` up to its `return`: the value of the local
`diff`.  (The `double` it returns, `diff.tv_sec + diff.tv_nsec / 1000000000.0`,
is floating point and is not part of the embedding.) -/
def diff_in_second (t1 t2 : timespec) : timespec :=
  if wrapInt64 (t2.tv_nsec - t1.tv_nsec) < 0 then
    { tv_sec := wrapInt64 (wrapInt64 (t2.tv_sec - t1.tv_sec) - 1)
      tv_nsec := wrapInt64 (wrapInt64 (t2.tv_nsec - t1.tv_nsec) + 1000000000) }
  else
    { tv_sec := wrapInt64 (t2.tv_sec - t1.tv_sec)
      tv_nsec := wrapInt64 (t2.tv_nsec - t1.tv_nsec) }

/-! ## `main` -/

/-- One return of `getopt_long` other than the final `-1`: the option
character and `optarg`. -/
structure GetoptResult where
  ch : Int
  optarg : List Char
deriving DecidableEq, Repr

/-- The function `usage`: four `fprintf` on the stream. -/
def usage (stream : String → Event) : List Event :=
  [stream "Usage: raytracing [options]\n", stream "Options:\n",
   stream "  \x7b-h|--help\x7d\n", stream "  \x7b-t|--threads\x7d <nr-threads>\n"]

/-- The status the parent sees after `exit(code)`. -/
def exit_status (code : Int) : Int := code % 256

/-- How the option loop of `main` ends. -/
inductive Parsed where
  | exit (events : List Event) (code : Int)
  | proceed (nr_threads : Int)
deriving DecidableEq, Repr

/-- The `while ((ch = getopt_long(..)) != -1) switch (ch)` loop of `main`
over the successive returns of `getopt_long`, from the current `nr_threads`.
The option characters are `104` for `'h'` and `116` for `'t'`; with the option
tables of `main` every other return is `'?'`, the `default` case. -/
def parse_options : List GetoptResult → Int → Parsed
  | [], nr_threads => Parsed.proceed nr_threads
  | opt :: rest, _ =>
    if opt.ch = 104 then Parsed.exit (usage Event.out) 0
    else if opt.ch = 116 then
      let r := strtol opt.optarg
      if r.endptr = 0 ∨ r.erange = true then
        Parsed.exit [Event.err "# Couldn't parse <threads>\n"] (-1)
      else if r.value < 1 ∨ r.value > 128 then
        Parsed.exit [Event.err "# Invalid number of thresds [1,128]\n"] (-1)
      else parse_options rest (wrapInt32 r.value)
    else Parsed.exit (usage Event.err) (-1)

/-- What `main` cannot decide by itself: `sizeof(thread_data)` (its scene
fields are declared in absent headers), whether each library call succeeds,
and the contents of the pixel buffer once the workers have been joined. -/
structure Env where
  sizeof_thread_data : Nat
  malloc_pixels_ok : Bool
  malloc_tdata_ok : Bool
  pthread_create_ok : Nat → Bool
  pthread_join_ok : Nat → Bool
  fopen_ok : Bool
  pixels : Buffer

/-- Events of a run of `main` and its exit status (`none`: undefined behaviour). -/
structure Outcome where
  events : List Event
  status : Option Int

/-- The loop `for (i = 0; i < nr_threads; i++) { ..; pthread_create(..) }` over
the indices still to do; the flag tells whether every creation succeeded. -/
def spawn_loop (env : Env) (nr_threads : Int) : List Nat → List Event × Bool
  | [] => ([], true)
  | i :: rest =>
    if env.pthread_create_ok i then
      let r := spawn_loop env nr_threads rest
      (Event.pthread_create i nr_threads :: r.1, r.2)
    else
      ([Event.pthread_create i nr_threads,
        Event.err ("Error creating thread " ++ String.mk (fmt_d i) ++ "\n")], false)

/-- The loop `for (i = 0; i < nr_threads; i++) pthread_join(..)`. -/
def join_loop (env : Env) : List Nat → List Event × Bool
  | [] => ([], true)
  | i :: rest =>
    if env.pthread_join_ok i then
      let r := join_loop env rest
      (Event.pthread_join i :: r.1, r.2)
    else ([Event.pthread_join i, Event.err "Error waiting for thread completion\n"], false)

/-- The function `main` after the option loop, with the accepted `nr_threads`:
allocations, barrier, worker threads, joins, output file, clean-up.  The
scene construction of `use-models.h`, the `pthread_attr_*` calls and the
`delete_*_list` calls make no event. -/
def main_render (env : Env) (nr_threads : Int) : Outcome :=
  let e1 := [Event.malloc (toSizeT (1 * ROWS * COLS * 3))]
  if env.malloc_pixels_ok = false then ⟨e1, some (exit_status (-1))⟩ else
  let e2 := e1 ++ [Event.malloc (toSizeT (env.sizeof_thread_data * nr_threads))]
  if env.malloc_tdata_ok = false then ⟨e2, some (exit_status (-1))⟩ else
  let e3 := e2 ++ [Event.barrier_init (wrapInt32 (nr_threads + 1))]
  let sp := spawn_loop env nr_threads (List.range nr_threads.toNat)
  if sp.2 = false then ⟨e3 ++ sp.1, some (exit_status (-1))⟩ else
  let e4 := e3 ++ sp.1 ++ [Event.barrier_cross,
    Event.out ("# Rendering scene, using " ++ String.mk (fmt_d nr_threads) ++ " threads\n"),
    Event.clock_gettime]
  let jn := join_loop env (List.range nr_threads.toNat)
  if jn.2 = false then ⟨e4 ++ jn.1, some (exit_status (-1))⟩ else
  let e5 := e4 ++ jn.1 ++ [Event.clock_gettime, Event.fopen "out.ppm"]
  if env.fopen_ok = false then ⟨e5, none⟩ else
  match write_to_ppm ⟨toSizeT (1 * ROWS * COLS * 3), env.pixels⟩ ROWS COLS with
  | none => ⟨e5, none⟩
  | some bytes =>
    ⟨e5 ++ [Event.file_write bytes, Event.fclose, Event.free, Event.free,
      Event.out "Done!\n", Event.out_execution_time], some 0⟩

/-- The function `main`, given the returns of `getopt_long` for its arguments. -/
def main (env : Env) (options : List GetoptResult) : Outcome :=
  match parse_options options 1 with
  | Parsed.exit events code => ⟨events, some (exit_status code)⟩
  | Parsed.proceed nr_threads => main_render env nr_threads

/-- The events of the worker thread that `main` creates with index `i`:
`render_scene` on `tdata[i]`. -/
def worker_events (nr_threads : Int) (fuel : Nat) (i : Nat) : List Event :=
  (render_scene ⟨i, nr_threads⟩ fuel).1

/-- Number of `barrier_cross` calls in a list of events. -/
def crossings (events : List Event) : Nat := events.count Event.barrier_cross

/-- The test `main` applies to the result of `strtol`: something was
converted, without range error, to a value in `[1,128]`. -/
def accepted (optarg : List Char) : Prop :=
  (strtol optarg).endptr ≠ 0 ∧ (strtol optarg).erange = false ∧
    1 ≤ (strtol optarg).value ∧ (strtol optarg).value ≤ 128

instance (optarg : List Char) : Decidable (accepted optarg) := by
  unfold accepted; infer_instance

/-- The string begins with the number `v`: white space, an optional sign, a
non-empty run of digits denoting `v` up to the sign, and then either the end
of the string or a character that is not a digit. -/
def begins_with_number (optarg : List Char) (v : Int) : Prop :=
  ∃ ws sign digits rest : List Char,
    optarg = ws ++ (sign ++ (digits ++ rest)) ∧ (∀ c ∈ ws, isspace c = true) ∧
    (sign = [] ∨ sign = ['-'] ∨ sign = ['+']) ∧ digits ≠ [] ∧ (∀ c ∈ digits, isdigit c = true) ∧
    (∀ c, rest.head? = some c → isdigit c = false) ∧
    v = if sign = ['-'] then -digits_value digits else digits_value digits

/-- The string does not begin with a number.  (This is narrower than "not a
number": a string such as `4x` or `3 threads` is not a number, but it begins
with one.) -/
def no_leading_number (optarg : List Char) : Prop := ¬ ∃ v, begins_with_number optarg v

/-- An environment in which every allocation, thread creation, join and
`fopen` succeeds. -/
def env_ok : Env :=
  { sizeof_thread_data := 128
    malloc_pixels_ok := true
    malloc_tdata_ok := true
    pthread_create_ok := fun _ => true
    pthread_join_ok := fun _ => true
    fopen_ok := true
    pixels := fun _ => 0 }

/-- The events by which `main` sets up the render: allocation, barrier
initialisation, thread creation. -/
def is_setup : Event → Bool
  | Event.malloc _ => true
  | Event.barrier_init _ => true
  | Event.pthread_create _ _ => true
  | _ => false

/-! ### The loop without overflow -/

theorem wrapInt32_eq {x : Int} (h₁ : -2147483648 ≤ x) (h₂ : x < 2147483648) :
    wrapInt32 x = x := by
  unfold wrapInt32; omega

theorem row_count_step {H T i : Nat} (hT : 0 < T) (hi : i < H) :
    row_count H T i = row_count H T (i + T) + 1 := by
  unfold row_count
  have h1 : H - i + T - 1 = (H - i - 1) + T := by omega
  rw [h1, Nat.add_div_right _ hT]
  congr 1
  by_cases h : i + T ≤ H
  · congr 1; omega
  · rw [Nat.div_eq_of_lt (by omega), Nat.div_eq_of_lt (by omega)]

theorem row_count_of_le {H T i : Nat} (hT : 0 < T) (hi : H ≤ i) : row_count H T i = 0 := by
  unfold row_count
  exact Nat.div_eq_of_lt (by omega)

theorem lt_row_count_iff {H T i j : Nat} (hT : 0 < T) :
    j < row_count H T i ↔ i + j * T < H := by
  unfold row_count
  rw [Nat.lt_iff_add_one_le, Nat.le_div_iff_mul_le hT, Nat.add_mul, Nat.one_mul]
  omega

/-- When the loop variable cannot overflow (`H + T ≤ 2^31`), the loop started
at `i` has made, after `fuel` evaluations of its condition, the calls for the
first `fuel` of the rows `i, i+T, ..` below `H`, and it has exited exactly when
the fuel exceeds the number of those rows. -/
theorem render_loop_char (H T : Nat) (hT : 0 < T) (hHT : H + T ≤ 2147483648) :
    ∀ (fuel i : Nat),
      render_loop H T fuel i =
        ((List.range (min fuel (row_count H T i))).map
            (fun j => row_call H ((i + j * T : Nat) : Int)),
          decide (row_count H T i < fuel)) := by
  intro fuel
  induction fuel with
  | zero => intro i; simp [render_loop]
  | succ fuel ih =>
    intro i
    by_cases hi : i < H
    · have hstep := row_count_step hT hi
      have hw : wrapInt32 ((i : Int) + (T : Int)) = ((i + T : Nat) : Int) := by
        rw [wrapInt32_eq] <;> push_cast <;> omega
      have hlt : (i : Int) < (H : Int) := by exact_mod_cast hi
      simp only [render_loop, hlt, if_true, hw]
      have hfun : (fun j => row_call H ((i + T + j * T : Nat) : Int)) =
          (fun j => row_call H ((i + j * T : Nat) : Int)) ∘ Nat.succ := by
        funext j
        have : i + T + j * T = i + (j + 1) * T := by ring
        simp only [Function.comp, Nat.succ_eq_add_one, this]
      rw [ih (i + T), hstep, Nat.add_min_add_right, List.range_succ_eq_map, List.map_cons,
        List.map_map, hfun, Nat.zero_mul, Nat.add_zero]
      refine Prod.ext rfl ?_
      simp only [Nat.add_lt_add_iff_right]
    · have hlt : ¬ (i : Int) < (H : Int) := by exact_mod_cast hi
      simp only [render_loop, hlt, if_false]
      rw [row_count_of_le hT (by omega)]
      simp

/-- The first `k` iterations of the loop, as long as each of them finds the
condition true and increments without overflow. -/
theorem render_loop_unroll (H T : Int) :
    ∀ (k : Nat) (i : Int) (fuel : Nat),
      (∀ j : Nat, j < k → i + j * T < H ∧ wrapInt32 (i + j * T + T) = i + j * T + T) →
      render_loop H T (k + fuel) i =
        ((List.range k).map (fun j : Nat => row_call H (i + j * T)) ++
            (render_loop H T fuel (i + k * T)).1,
          (render_loop H T fuel (i + k * T)).2) := by
  intro k
  induction k with
  | zero => intro i fuel _; simp
  | succ k ih =>
    intro i fuel h
    have h0 := h 0 (Nat.succ_pos k)
    simp only [Nat.cast_zero, zero_mul, add_zero] at h0
    have hshift : ∀ j : Nat, j < k →
        i + T + j * T < H ∧ wrapInt32 (i + T + j * T + T) = i + T + j * T + T := by
      intro j hj
      have := h (j + 1) (Nat.succ_lt_succ hj)
      have e : i + ((j + 1 : Nat) : Int) * T = i + T + j * T := by push_cast; ring
      rw [e] at this
      exact this
    have hfun : (fun j : Nat => row_call H (i + T + j * T)) =
        (fun j : Nat => row_call H (i + j * T)) ∘ Nat.succ := by
      funext j
      have : i + T + (j : Int) * T = i + ((j + 1 : Nat) : Int) * T := by push_cast; ring
      simp only [Function.comp, Nat.succ_eq_add_one, this]
    have e2 : i + T + (k : Int) * T = i + ((k + 1 : Nat) : Int) * T := by push_cast; ring
    rw [show k + 1 + fuel = (k + fuel) + 1 by omega]
    simp only [render_loop, h0.1, if_true, h0.2]
    rw [ih (i + T) fuel hshift, List.range_succ_eq_map, List.map_cons, List.map_map, hfun, e2]
    simp [row_call]

/-- Rows of the loop when the loop variable cannot overflow. -/
theorem loop_rows_char (H T : Nat) (hT : 0 < T) (hHT : H + T ≤ 2147483648) (fuel i : Nat) :
    loop_rows H T fuel i =
      (List.range (min fuel (row_count H T i))).map (fun j => ((i + j * T : Nat) : Int)) := by
  unfold loop_rows
  rw [render_loop_char H T hT hHT, List.map_map]
  rfl

theorem mem_loop_rows_iff (H T : Nat) (hT : 0 < T) (hHT : H + T ≤ 2147483648) (fuel i : Nat)
    (r : Int) :
    r ∈ loop_rows H T fuel i ↔ ∃ j : Nat, j < fuel ∧ i + j * T < H ∧ r = ((i + j * T : Nat) : Int) := by
  rw [loop_rows_char H T hT hHT, List.mem_map]
  constructor
  · rintro ⟨j, hj, rfl⟩
    rw [List.mem_range, lt_min_iff, lt_row_count_iff hT] at hj
    exact ⟨j, hj.1, hj.2, rfl⟩
  · rintro ⟨j, hj, hlt, rfl⟩
    refine ⟨j, ?_, rfl⟩
    rw [List.mem_range, lt_min_iff, lt_row_count_iff hT]
    exact ⟨hj, hlt⟩

theorem row_count_shift (H T i : Nat) : row_count H T (i + T) = row_count (H - T) T i := by
  unfold row_count
  congr 2
  omega

theorem row_count_near {H T i j : Nat} (hT : 0 < T) (hi : i < T) (hj : j < T) :
    row_count H T i ≤ row_count H T j + 1 := by
  unfold row_count
  rw [← Nat.add_div_right _ hT]
  exact Nat.div_le_div_right (by omega)

theorem sum_row_count (T : Nat) (hT : 0 < T) :
    ∀ H : Nat, (Finset.range T).sum (row_count H T) = H := by
  intro H
  induction H using Nat.strong_induction_on with
  | _ H ih =>
    by_cases hlt : H < T
    · have h1 : ∀ i ∈ Finset.range T, row_count H T i = if i < H then 1 else 0 := by
        intro i _
        by_cases hi : i < H
        · rw [if_pos hi, row_count_step hT hi, row_count_of_le hT (by omega)]
        · rw [if_neg hi, row_count_of_le hT (by omega)]
      rw [Finset.sum_congr rfl h1, Finset.sum_boole]
      have h2 : (Finset.range T).filter (fun i => i < H) = Finset.range H := by
        ext i
        simp only [Finset.mem_filter, Finset.mem_range]
        omega
      rw [h2]
      simp
    · have h1 : ∀ i ∈ Finset.range T, row_count H T i = row_count (H - T) T i + 1 := by
        intro i hi
        rw [Finset.mem_range] at hi
        rw [row_count_step hT (by omega), row_count_shift]
      rw [Finset.sum_congr rfl h1, Finset.sum_add_distrib, ih (H - T) (by omega)]
      simp
      omega

theorem row_count_ceil {H T i : Nat} (hT : 0 < T) (hi : i < H) :
    ((row_count H T i : Nat) : Int) = ⌈((H : ℚ) - (i : ℚ)) / (T : ℚ)⌉ := by
  symm
  rw [Int.ceil_eq_iff]
  have hTq : (0 : ℚ) < (T : ℚ) := by exact_mod_cast hT
  have hpos : 0 < row_count H T i := by
    rw [lt_row_count_iff hT]; simpa using hi
  have hlow : i + (row_count H T i - 1) * T < H :=
    (lt_row_count_iff hT).1 (by omega)
  have hup : H ≤ i + row_count H T i * T := by
    have := (lt_row_count_iff (H := H) (i := i) (j := row_count H T i) hT).not.1 (lt_irrefl _)
    omega
  have hlowq : ((i : ℚ) + ((row_count H T i : ℚ) - 1) * (T : ℚ)) < (H : ℚ) := by
    have : ((i + (row_count H T i - 1) * T : Nat) : ℚ) < (H : ℚ) := by exact_mod_cast hlow
    rw [Nat.cast_add, Nat.cast_mul, Nat.cast_sub hpos] at this
    simpa using this
  have hupq : (H : ℚ) ≤ (i : ℚ) + (row_count H T i : ℚ) * (T : ℚ) := by exact_mod_cast hup
  constructor
  · rw [lt_div_iff₀ hTq]
    push_cast
    linarith
  · rw [div_le_iff₀ hTq]
    push_cast
    linarith

/-! ## The row partition -/

/-- C1 (amended): for every thread count `T ≥ 1` (so every `T` in `[1,128]`)
and every height `H ≥ 0` with `H + T ≤ 2^31`, where the `int` loop variable
cannot overflow (`H = ROWS = 512` is such a height): each worker's loop exits;
a worker index in `[0, T)` only visits rows in `[0, H)`, each at most once; and
every row `r` in `[0, H)` is visited by the loop of exactly one worker. -/
theorem row_coverage (T H : Nat) (hT : 1 ≤ T) (hHT : H + T ≤ 2147483648) :
    (∀ i : Nat, i < T → ∀ fuel : Nat, row_count H T i < fuel →
        (render_loop H T fuel i).2 = true) ∧
    (∀ i : Nat, i < T → ∀ (fuel : Nat) (r : Int), r ∈ loop_rows H T fuel i → 0 ≤ r ∧ r < H) ∧
    (∀ i : Nat, i < T → ∀ fuel : Nat, (loop_rows H T fuel i).Nodup) ∧
    (∀ r : Nat, r < H → ∃! i : Nat, i < T ∧ ∃ fuel : Nat, (r : Int) ∈ loop_rows H T fuel i) := by
  have hT0 : 0 < T := hT
  refine ⟨?_, ?_, ?_, ?_⟩
  · intro i _ fuel hfuel
    rw [render_loop_char H T hT0 hHT]
    simpa using hfuel
  · intro i _ fuel r hr
    obtain ⟨j, _, hlt, rfl⟩ := (mem_loop_rows_iff H T hT0 hHT fuel i r).1 hr
    constructor
    · exact Int.natCast_nonneg _
    · exact_mod_cast hlt
  · intro i _ fuel
    rw [loop_rows_char H T hT0 hHT]
    refine (List.nodup_range _).map ?_
    intro a b hab
    have h1 : i + a * T = i + b * T := by
      simp only at hab
      exact_mod_cast hab
    have h2 : a * T = b * T := by omega
    exact Nat.eq_of_mul_eq_mul_right hT0 h2
  · intro r hr
    refine ⟨r % T, ⟨Nat.mod_lt _ hT0, r / T + 1, ?_⟩, ?_⟩
    · rw [mem_loop_rows_iff H T hT0 hHT]
      refine ⟨r / T, by omega, ?_, ?_⟩
      · rw [Nat.mod_add_div']; exact hr
      · rw [Nat.mod_add_div']
    · rintro i ⟨hi, fuel, hmem⟩
      obtain ⟨j, _, _, hj⟩ := (mem_loop_rows_iff H T hT0 hHT fuel i r).1 hmem
      have hrj : r = i + j * T := by exact_mod_cast hj
      rw [hrj, Nat.add_mul_mod_self_right, Nat.mod_eq_of_lt hi]

/-- C1, instance: two workers and four rows. -/
theorem row_coverage_witness :
    (∀ i : Nat, i < 2 → ∀ fuel : Nat, row_count 4 2 i < fuel →
        (render_loop (4 : Nat) (2 : Nat) fuel i).2 = true) ∧
    (∀ i : Nat, i < 2 → ∀ (fuel : Nat) (r : Int),
        r ∈ loop_rows (4 : Nat) (2 : Nat) fuel i → 0 ≤ r ∧ r < (4 : Nat)) ∧
    (∀ i : Nat, i < 2 → ∀ fuel : Nat, (loop_rows (4 : Nat) (2 : Nat) fuel i).Nodup) ∧
    (∀ r : Nat, r < 4 → ∃! i : Nat, i < 2 ∧
        ∃ fuel : Nat, (r : Int) ∈ loop_rows (4 : Nat) (2 : Nat) fuel i) :=
  row_coverage 2 4 (by decide) (by decide)

/-- C1 as stated fails: with `T = 2` threads and height `H = 2^31 - 1`, worker 0
visits the rows `0, 2, .., 2^31 - 2`, its increment then wraps around and it
visits row `-2^31`, which is outside `[0, H)`. -/
theorem row_coverage_counterexample :
    (-2147483648 : Int) ∈ loop_rows 2147483647 2 1073741825 0 ∧
      ¬ (0 ≤ (-2147483648 : Int)) := by
  refine ⟨?_, by decide⟩
  have h := render_loop_unroll 2147483647 2 1073741823 0 2 (by
    intro j hj
    have hj' : (j : Int) < 1073741823 := by exact_mod_cast hj
    have hj0 : (0 : Int) ≤ (j : Int) := Int.natCast_nonneg j
    refine ⟨by omega, ?_⟩
    rw [wrapInt32_eq] <;> omega)
  have e : (1073741825 : Nat) = 1073741823 + 2 := by norm_num
  unfold loop_rows
  rw [e, h, List.map_append, List.mem_append]
  right
  have e2 : ((0 : Int) + ((1073741823 : Nat) : Int) * 2) = 2147483646 := by norm_num
  rw [e2]
  decide

/-- C3 (amended): for every `T` with `1 ≤ T ≤ 2^31 - 512` (so for every
validated `T` in `[1,128]`) and worker index `i` in `[0, T)`, `render_scene`
crosses the barrier, then calls `raytracing` exactly for the rows
`i, i+T, i+2T, ..` below `ROWS`, in increasing order, each time with the
one-row region `left = 0, top = bottom = row, right = COLS - 1`, and returns. -/
theorem worker_assignment (T i : Nat) (hT : 1 ≤ T) (hmax : T ≤ 2147483136) (_hi : i < T) :
    (∀ fuel : Nat, row_count 512 T i < fuel →
      render_scene ⟨i, T⟩ fuel =
        (Event.barrier_cross ::
          (List.range (row_count 512 T i)).map (fun j : Nat =>
            Event.raytracing ⟨ROWS, COLS, 0, i + j * T, COLS - 1, i + j * T⟩), true)) ∧
    (∀ j : Nat, j < row_count 512 T i ↔ (i : Int) + j * T < ROWS) ∧
    ((List.range (row_count 512 T i)).map (fun j : Nat => (i : Int) + j * T)).Pairwise
      (fun a b => a < b) := by
  have hT0 : 0 < T := hT
  refine ⟨?_, ?_, ?_⟩
  · intro fuel hfuel
    have h := render_loop_char 512 T hT0 (by omega) fuel i
    have hmin : min fuel (row_count 512 T i) = row_count 512 T i := by omega
    have hdec : decide (row_count 512 T i < fuel) = true := by simpa using hfuel
    rw [hmin, hdec] at h
    have hrows : ROWS = ((512 : Nat) : Int) := rfl
    simp only [render_scene, hrows, h, List.map_map]
    refine Prod.ext ?_ rfl
    simp only [List.cons.injEq, true_and]
    apply List.map_congr_left
    intro j _
    simp [row_call]
  · intro j
    rw [lt_row_count_iff hT0]
    have hrows : ROWS = 512 := rfl
    rw [hrows]
    constructor
    · intro h; exact_mod_cast h
    · intro h; exact_mod_cast h
  · rw [List.pairwise_map]
    refine (List.pairwise_lt_range _).imp ?_
    intro a b hab
    have h1 : (a : Int) * T < b * T :=
      mul_lt_mul_of_pos_right (by exact_mod_cast hab) (by exact_mod_cast hT0)
    omega

/-- C3, instance: worker 1 of 200 renders rows 1, 201, 401. -/
theorem worker_assignment_witness :
    (∀ fuel : Nat, row_count 512 200 1 < fuel →
      render_scene ⟨(1 : Nat), (200 : Nat)⟩ fuel =
        (Event.barrier_cross ::
          (List.range (row_count 512 200 1)).map (fun j : Nat =>
            Event.raytracing ⟨ROWS, COLS, 0, (1 : Nat) + j * (200 : Nat), COLS - 1,
              (1 : Nat) + j * (200 : Nat)⟩), true)) ∧
    (∀ j : Nat, j < row_count 512 200 1 ↔ ((1 : Nat) : Int) + j * (200 : Nat) < ROWS) ∧
    ((List.range (row_count 512 200 1)).map
      (fun j : Nat => ((1 : Nat) : Int) + j * (200 : Nat))).Pairwise (fun a b => a < b) :=
  worker_assignment 200 1 (by decide) (by decide) (by decide)

/-- C3 as stated fails: with `T = 2^31 - 1` worker 1 renders row 1, its
increment wraps around, and it goes on to call `raytracing` for the rows
`-2^31` and `-1`; the only row `1 + j * T` below `ROWS` is row 1. -/
theorem worker_assignment_counterexample :
    render_scene ⟨1, 2147483647⟩ 4 =
      ([Event.barrier_cross,
        Event.raytracing ⟨512, 512, 0, 1, 511, 1⟩,
        Event.raytracing ⟨512, 512, 0, -2147483648, 511, -2147483648⟩,
        Event.raytracing ⟨512, 512, 0, -1, 511, -1⟩], true) := by
  decide

/-- C9 (amended): for every `T ≥ 1` and `H ≥ 0` with `H + T ≤ 2^31` (no
overflow of the loop variable), the loop of worker `i` in `[0, T)` exits
after exactly `row_count H T i` iterations, which is `ceil((H - i) / T)` when
`i < H` and `0` otherwise; two workers' counts differ by at most one, the
counts sum to `H`, and with `H = 512`, `T ≤ 128` every worker has at least 4 rows. -/
theorem balanced_load (T H : Nat) (hT : 1 ≤ T) (hHT : H + T ≤ 2147483648) :
    (∀ i : Nat, i < T →
      (∀ fuel : Nat, (render_loop H T fuel i).2 = true ↔ row_count H T i < fuel) ∧
      (∀ fuel : Nat, (render_loop H T fuel i).2 = true →
        (render_loop H T fuel i).1.length = row_count H T i) ∧
      (i < H → ((row_count H T i : Nat) : Int) = ⌈((H : ℚ) - (i : ℚ)) / (T : ℚ)⌉) ∧
      (H ≤ i → row_count H T i = 0)) ∧
    (∀ i j : Nat, i < T → j < T → row_count H T i ≤ row_count H T j + 1) ∧
    (Finset.range T).sum (row_count H T) = H ∧
    (H = 512 → T ≤ 128 → ∀ i : Nat, i < T → 4 ≤ row_count H T i) := by
  have hT0 : 0 < T := hT
  refine ⟨?_, ?_, sum_row_count T hT0 H, ?_⟩
  · intro i _
    refine ⟨?_, ?_, fun hi => row_count_ceil hT0 hi, fun hi => row_count_of_le hT0 hi⟩
    · intro fuel
      rw [render_loop_char H T hT0 hHT]
      simp
    · intro fuel
      rw [render_loop_char H T hT0 hHT]
      simp only [decide_eq_true_eq, List.length_map, List.length_range]
      intro h
      omega
  · intro i j hi hj
    exact row_count_near hT0 hi hj
  · intro hH hT128 i hi
    subst hH
    have h3 : (3 : Nat) < row_count 512 T i := by
      rw [lt_row_count_iff hT0]
      omega
    exact h3

/-- C9, instance: three workers and the 512 rows of the program (171, 171 and
170 rows). -/
theorem balanced_load_witness :
    (∀ i : Nat, i < 3 →
      (∀ fuel : Nat, (render_loop (512 : Nat) (3 : Nat) fuel i).2 = true ↔
        row_count 512 3 i < fuel) ∧
      (∀ fuel : Nat, (render_loop (512 : Nat) (3 : Nat) fuel i).2 = true →
        (render_loop (512 : Nat) (3 : Nat) fuel i).1.length = row_count 512 3 i) ∧
      (i < 512 → ((row_count 512 3 i : Nat) : Int) =
        ⌈(((512 : Nat) : ℚ) - (i : ℚ)) / ((3 : Nat) : ℚ)⌉) ∧
      (512 ≤ i → row_count 512 3 i = 0)) ∧
    (∀ i j : Nat, i < 3 → j < 3 → row_count 512 3 i ≤ row_count 512 3 j + 1) ∧
    (Finset.range 3).sum (row_count 512 3) = 512 ∧
    (512 = 512 → 3 ≤ 128 → ∀ i : Nat, i < 3 → 4 ≤ row_count 512 3 i) :=
  balanced_load 3 512 (by decide) (by decide)

/-- C9 as stated fails: with `T = 2^31 - 1` and `H = 512`, the loop of worker 2
makes three iterations (rows `2`, `-2^31 + 1` after the wrap-around, and `0`)
although `ceil((512 - 2) / T) = 1`. -/
theorem balanced_load_counterexample :
    render_loop 512 2147483647 4 2 =
        ([⟨512, 512, 0, 2, 511, 2⟩, ⟨512, 512, 0, -2147483647, 511, -2147483647⟩,
          ⟨512, 512, 0, 0, 511, 0⟩], true) ∧
      row_count 512 2147483647 2 = 1 := by
  decide

/-! ## Independence of the thread count -/

theorem in_region_row_call (r idx : Nat) :
    in_region (row_call 512 r) idx = true ↔ idx / 1536 = r := by
  simp only [in_region, row_call, COLS, decide_eq_true_eq]
  omega

theorem worker_calls_char (T i : Nat) (hT : 1 ≤ T) (hmax : T ≤ 2147483136) :
    worker_calls T i =
      (List.range (row_count 512 T i)).map (fun j => row_call 512 ((i + j * T : Nat) : Int)) ∧
    (render_loop ROWS T 513 i).2 = true := by
  have hT0 : 0 < T := hT
  have hn : row_count 512 T i < 513 := by
    have : ¬ (512 < row_count 512 T i) := by
      rw [lt_row_count_iff hT0]
      have : 512 ≤ 512 * T := Nat.le_mul_of_pos_right 512 hT0
      omega
    omega
  have h := render_loop_char 512 T hT0 (by omega) 513 i
  have hmin : min 513 (row_count 512 T i) = row_count 512 T i := by omega
  have hrows : ROWS = ((512 : Nat) : Int) := rfl
  rw [hmin] at h
  constructor
  · unfold worker_calls
    rw [hrows, h]
    rfl
  · rw [hrows, h]
    simpa using hn

theorem mem_all_calls_iff (T : Nat) (hT : 1 ≤ T) (hmax : T ≤ 2147483136) (c : RaytracingCall) :
    c ∈ all_calls T ↔ ∃ r : Nat, r < 512 ∧ c = row_call 512 r := by
  have hT0 : 0 < T := hT
  unfold all_calls
  rw [List.mem_flatMap]
  constructor
  · rintro ⟨i, _, hc⟩
    rw [(worker_calls_char T i hT hmax).1, List.mem_map] at hc
    obtain ⟨j, hj, rfl⟩ := hc
    rw [List.mem_range, lt_row_count_iff hT0] at hj
    exact ⟨i + j * T, hj, by push_cast; rfl⟩
  · rintro ⟨r, hr, rfl⟩
    refine ⟨r % T, List.mem_range.2 (Nat.mod_lt _ hT0), ?_⟩
    rw [(worker_calls_char T (r % T) hT hmax).1, List.mem_map]
    refine ⟨r / T, ?_, ?_⟩
    · rw [List.mem_range, lt_row_count_iff hT0, Nat.mod_add_div']
      exact hr
    · rw [Nat.mod_add_div']

/-- The buffer after a list of one-row calls, byte by byte: the byte is the
one `raytracing` stores for its row if the row's call is in the list, and is
untouched otherwise; the order of the calls plays no part. -/
theorem run_calls_char {Scene : Type} (rt : Scene → RaytracingCall → Buffer → Buffer)
    (frame : ∀ scene call pixels idx, in_region call idx = false →
      rt scene call pixels idx = pixels idx)
    (det : ∀ scene call pixels pixels_alt idx, in_region call idx = true →
      rt scene call pixels idx = rt scene call pixels_alt idx)
    (scene : Scene) :
    ∀ (calls : List RaytracingCall), (∀ c ∈ calls, ∃ r : Nat, c = row_call 512 r) →
      ∀ (pixels : Buffer) (idx : Nat),
        run_calls rt scene calls pixels idx =
          if row_call 512 ((idx / 1536 : Nat) : Int) ∈ calls
          then rt scene (row_call 512 ((idx / 1536 : Nat) : Int)) pixels idx
          else pixels idx := by
  intro calls
  induction calls with
  | nil => intro _ pixels idx; simp [run_calls]
  | cons c rest ih =>
    intro hall pixels idx
    have hrest : ∀ c ∈ rest, ∃ r : Nat, c = row_call 512 r :=
      fun c hc => hall c (List.mem_cons_of_mem _ hc)
    have hrun : run_calls rt scene (c :: rest) pixels =
        run_calls rt scene rest (rt scene c pixels) := rfl
    have hin : in_region (row_call 512 ((idx / 1536 : Nat) : Int)) idx = true :=
      (in_region_row_call _ _).2 rfl
    rw [hrun, ih hrest]
    by_cases hmem : row_call 512 ((idx / 1536 : Nat) : Int) ∈ rest
    · rw [if_pos hmem, if_pos (List.mem_cons_of_mem _ hmem)]
      exact det _ _ _ _ _ hin
    · rw [if_neg hmem]
      by_cases hc : c = row_call 512 ((idx / 1536 : Nat) : Int)
      · rw [if_pos (by rw [hc]; exact List.mem_cons_self _ _), hc]
      · have hnot : ¬ row_call 512 ((idx / 1536 : Nat) : Int) ∈ c :: rest := by
          rw [List.mem_cons]
          rintro (h | h)
          · exact hc h.symm
          · exact hmem h
        rw [if_neg hnot]
        obtain ⟨r, hr⟩ := hall c (List.mem_cons_self _ _)
        apply frame
        rw [hr, Bool.eq_false_iff]
        intro hreg
        rw [in_region_row_call] at hreg
        exact hc (by rw [hr, hreg])

theorem paint_frame {Scene : Type} (colour : Scene → Int → Nat → Nat) :
    ∀ scene call pixels idx, in_region call idx = false →
      paint colour scene call pixels idx = pixels idx := by
  intro scene call pixels idx h
  simp [paint, h]

theorem paint_det {Scene : Type} (colour : Scene → Int → Nat → Nat) :
    ∀ scene call pixels pixels_alt idx, in_region call idx = true →
      paint colour scene call pixels idx = paint colour scene call pixels_alt idx := by
  intro scene call pixels pixels_alt idx h
  simp [paint, h]

/-- C2: let `raytracing` be any buffer transformer that leaves the bytes
outside the region of its call untouched (`frame`) and whose bytes inside the
region depend on the scene and the call only (`det`).  Then for every scene
and thread counts `T1, T2` in `[1,128]`, every worker loop exits, and applying
the calls of all `T1` workers to the pixel buffer in any order gives, byte for
byte, the same buffer as applying the calls of all `T2` workers in any order:
byte `idx` of a row below `ROWS` is what the call for row `idx / (3 * 512)`
stores there. -/
theorem thread_count_independence {Scene : Type}
    (rt : Scene → RaytracingCall → Buffer → Buffer)
    (frame : ∀ scene call pixels idx, in_region call idx = false →
      rt scene call pixels idx = pixels idx)
    (det : ∀ scene call pixels pixels_alt idx, in_region call idx = true →
      rt scene call pixels idx = rt scene call pixels_alt idx)
    (scene : Scene) (T1 T2 : Nat) (h1 : 1 ≤ T1 ∧ T1 ≤ 128) (h2 : 1 ≤ T2 ∧ T2 ≤ 128)
    (order1 order2 : List RaytracingCall)
    (hp1 : order1.Perm (all_calls T1)) (hp2 : order2.Perm (all_calls T2)) (pixels : Buffer) :
    run_calls rt scene order1 pixels = run_calls rt scene order2 pixels ∧
    (∀ idx : Nat, idx < 512 * 512 * 3 →
      run_calls rt scene order1 pixels idx =
        rt scene ⟨ROWS, COLS, 0, ((idx / 1536 : Nat) : Int), COLS - 1, ((idx / 1536 : Nat) : Int)⟩
          pixels idx) ∧
    (∀ i : Nat, i < T1 → (render_loop ROWS T1 513 i).2 = true) ∧
    (∀ i : Nat, i < T2 → (render_loop ROWS T2 513 i).2 = true) := by
  have hm1 : ∀ c, c ∈ order1 ↔ ∃ r : Nat, r < 512 ∧ c = row_call 512 r := fun c => by
    rw [hp1.mem_iff, mem_all_calls_iff T1 h1.1 (by omega)]
  have hm2 : ∀ c, c ∈ order2 ↔ ∃ r : Nat, r < 512 ∧ c = row_call 512 r := fun c => by
    rw [hp2.mem_iff, mem_all_calls_iff T2 h2.1 (by omega)]
  have ha1 : ∀ c ∈ order1, ∃ r : Nat, c = row_call 512 r := fun c hc => by
    obtain ⟨r, _, hr⟩ := (hm1 c).1 hc
    exact ⟨r, hr⟩
  have ha2 : ∀ c ∈ order2, ∃ r : Nat, c = row_call 512 r := fun c hc => by
    obtain ⟨r, _, hr⟩ := (hm2 c).1 hc
    exact ⟨r, hr⟩
  refine ⟨?_, ?_, fun i _ => (worker_calls_char T1 i h1.1 (by omega)).2,
    fun i _ => (worker_calls_char T2 i h2.1 (by omega)).2⟩
  · funext idx
    rw [run_calls_char rt frame det scene order1 ha1, run_calls_char rt frame det scene order2 ha2]
    have hiff : row_call 512 ((idx / 1536 : Nat) : Int) ∈ order1 ↔
        row_call 512 ((idx / 1536 : Nat) : Int) ∈ order2 := by
      rw [hm1, hm2]
    by_cases h : row_call 512 ((idx / 1536 : Nat) : Int) ∈ order1
    · rw [if_pos h, if_pos (hiff.1 h)]
    · rw [if_neg h, if_neg (fun h' => h (hiff.2 h'))]
  · intro idx hidx
    rw [run_calls_char rt frame det scene order1 ha1]
    have hmem : row_call 512 ((idx / 1536 : Nat) : Int) ∈ order1 := by
      rw [hm1]
      exact ⟨idx / 1536, by omega, rfl⟩
    rw [if_pos hmem]
    rfl

/-- C2, instance: one thread against 128 threads whose calls are applied in
the reverse order, for a `raytracing` that paints row number plus offset. -/
theorem thread_count_independence_witness :
    (run_calls (paint (fun (_ : Unit) (row : Int) (idx : Nat) => (row.toNat + idx) % 256)) ()
        (all_calls 1) (fun _ => 0) =
      run_calls (paint (fun (_ : Unit) (row : Int) (idx : Nat) => (row.toNat + idx) % 256)) ()
        (all_calls 128).reverse (fun _ => 0)) ∧
    (∀ idx : Nat, idx < 512 * 512 * 3 →
      run_calls (paint (fun (_ : Unit) (row : Int) (idx : Nat) => (row.toNat + idx) % 256)) ()
        (all_calls 1) (fun _ => 0) idx =
        paint (fun (_ : Unit) (row : Int) (idx : Nat) => (row.toNat + idx) % 256) ()
          ⟨ROWS, COLS, 0, ((idx / 1536 : Nat) : Int), COLS - 1, ((idx / 1536 : Nat) : Int)⟩
          (fun _ => 0) idx) ∧
    (∀ i : Nat, i < 1 → (render_loop ROWS (1 : Nat) 513 i).2 = true) ∧
    (∀ i : Nat, i < 128 → (render_loop ROWS (128 : Nat) 513 i).2 = true) :=
  thread_count_independence _ (paint_frame _) (paint_det _) () 1 128 (by decide) (by decide)
    (all_calls 1) (all_calls 128).reverse (List.Perm.refl _) (List.reverse_perm _) (fun _ => 0)

/-! ## The option loop -/

theorem exit_status_minus_one : exit_status (-1) = 255 := by decide

theorem parse_t_accepted (optarg : List Char) (rest : List GetoptResult) (n0 : Int)
    (h : accepted optarg) :
    parse_options (⟨116, optarg⟩ :: rest) n0 = parse_options rest (strtol optarg).value := by
  obtain ⟨h1, h2, h3, h4⟩ := h
  have hw : wrapInt32 (strtol optarg).value = (strtol optarg).value :=
    wrapInt32_eq (by omega) (by omega)
  have h5 : ¬ ((strtol optarg).value < 1 ∨ (strtol optarg).value > 128) := by omega
  simp [parse_options, h1, h2, h5, hw]

theorem parse_t_rejected (optarg : List Char) (rest : List GetoptResult) (n0 : Int)
    (h : ¬ accepted optarg) :
    ∃ msg, parse_options (⟨116, optarg⟩ :: rest) n0 = Parsed.exit [Event.err msg] (-1) := by
  by_cases h1 : (strtol optarg).endptr = 0 ∨ (strtol optarg).erange = true
  · exact ⟨"# Couldn't parse <threads>\n", by simp [parse_options, h1]⟩
  · by_cases h2 : (strtol optarg).value < 1 ∨ (strtol optarg).value > 128
    · exact ⟨"# Invalid number of thresds [1,128]\n", by simp [parse_options, h1, h2]⟩
    · exfalso
      apply h
      unfold accepted
      refine ⟨fun h0 => h1 (Or.inl h0), ?_, by omega, by omega⟩
      cases he : (strtol optarg).erange
      · rfl
      · exact absurd (Or.inr he) h1

theorem parse_options_append (pre rest : List GetoptResult) :
    ∀ n0 : Int, parse_options (pre ++ rest) n0 =
      match parse_options pre n0 with
      | Parsed.exit events code => Parsed.exit events code
      | Parsed.proceed n => parse_options rest n := by
  induction pre with
  | nil => intro n0; simp [parse_options]
  | cons o pre ih =>
    intro n0
    simp only [List.cons_append, parse_options]
    split_ifs <;> simp [ih]

/-- The option loop goes through only if every option is a `-t` whose
argument passes the test, and then `nr_threads` is the initial value or the
value of the last option. -/
theorem parse_options_proceed :
    ∀ (options : List GetoptResult) (n0 n : Int), parse_options options n0 = Parsed.proceed n →
      (∀ o ∈ options, o.ch = 116 ∧ accepted o.optarg) ∧
      n = (options.getLast?.map (fun o => (strtol o.optarg).value)).getD n0 := by
  intro options
  induction options with
  | nil =>
    intro n0 n h
    simp only [parse_options, Parsed.proceed.injEq] at h
    simp [h]
  | cons o rest ih =>
    intro n0 n h
    obtain ⟨ch, optarg⟩ := o
    by_cases hh : ch = 104
    · simp [parse_options, hh] at h
    · by_cases ht : ch = 116
      · subst ht
        by_cases hacc : accepted optarg
        · rw [parse_t_accepted optarg rest n0 hacc] at h
          obtain ⟨hall, hn⟩ := ih _ _ h
          refine ⟨?_, ?_⟩
          · intro o ho
            rcases List.mem_cons.1 ho with rfl | ho
            · exact ⟨rfl, hacc⟩
            · exact hall o ho
          · rw [hn]
            cases rest with
            | nil => simp
            | cons q rest =>
              rw [List.getLast?_cons_cons, List.getLast?_eq_getLast _ (List.cons_ne_nil q rest)]
              rfl
        · obtain ⟨msg, hmsg⟩ := parse_t_rejected optarg rest n0 hacc
          rw [hmsg] at h
          exact absurd h (by simp)
      · simp [parse_options, hh, ht] at h

theorem parse_options_range (options : List GetoptResult) (n : Int)
    (h : parse_options options 1 = Parsed.proceed n) : 1 ≤ n ∧ n ≤ 128 := by
  obtain ⟨hall, hn⟩ := parse_options_proceed options 1 n h
  cases hl : options.getLast? with
  | none => rw [hl] at hn; simp at hn; omega
  | some o =>
    rw [hl] at hn
    simp only [Option.map_some', Option.getD_some] at hn
    have := (hall o (List.mem_of_getLast?_eq_some hl)).2
    unfold accepted at this
    omega

/-- An exit from the option loop only writes to `stdout` or `stderr`. -/
theorem parse_options_exit :
    ∀ (options : List GetoptResult) (n0 : Int) (events : List Event) (code : Int),
      parse_options options n0 = Parsed.exit events code →
      (∀ e ∈ events, (∃ t, e = Event.out t) ∨ ∃ t, e = Event.err t) ∧ (code = 0 ∨ code = -1) := by
  intro options
  induction options with
  | nil => intro n0 events code h; simp [parse_options] at h
  | cons o rest ih =>
    intro n0 events code h
    obtain ⟨ch, optarg⟩ := o
    by_cases hh : ch = 104
    · simp only [parse_options, hh, if_true, Parsed.exit.injEq] at h
      obtain ⟨rfl, rfl⟩ := h
      simp [usage]
    · by_cases ht : ch = 116
      · subst ht
        by_cases hacc : accepted optarg
        · rw [parse_t_accepted optarg rest n0 hacc] at h
          exact ih _ _ _ h
        · obtain ⟨msg, hmsg⟩ := parse_t_rejected optarg rest n0 hacc
          rw [hmsg, Parsed.exit.injEq] at h
          obtain ⟨rfl, rfl⟩ := h
          simp
      · simp only [parse_options, hh, ht, if_false, Parsed.exit.injEq] at h
        obtain ⟨rfl, rfl⟩ := h
        simp [usage]

/-! ## `strtol` on arguments without a number and on numbers followed by text -/

theorem not_isspace_of_isdigit {c : Char} (h : isdigit c = true) : isspace c = false := by
  simp only [isdigit, Bool.and_eq_true, decide_eq_true_eq] at h
  simp only [isspace, Bool.or_eq_false_iff, Bool.and_eq_false_iff, decide_eq_false_iff_not]
  omega

theorem not_sign_of_isdigit {c : Char} (h : isdigit c = true) : c ≠ '-' ∧ c ≠ '+' := by
  constructor <;> (rintro rfl; revert h; decide)

/-- With no number at the start of the string `strtol` converts nothing. -/
theorem strtol_of_no_leading_number (s : List Char) (h : no_leading_number s) : (strtol s).endptr = 0 := by
  by_cases hd : List.takeWhile isdigit
      (if (s.dropWhile isspace).head? = some '-' ∨ (s.dropWhile isspace).head? = some '+'
        then (s.dropWhile isspace).tail else s.dropWhile isspace) = []
  · simp [strtol, hd]
  · exfalso
    apply h
    have hs : s = s.takeWhile isspace ++ s.dropWhile isspace :=
      (List.takeWhile_append_dropWhile isspace s).symm
    have hws : ∀ c ∈ s.takeWhile isspace, isspace c = true := fun c hc => List.mem_takeWhile_imp hc
    have hrest : ∀ (l : List Char) (c : Char),
        (l.dropWhile isdigit).head? = some c → isdigit c = false := by
      intro l c hc
      have := List.head?_dropWhile_not isdigit l
      rw [hc] at this
      simpa using this
    rcases hs1 : s.dropWhile isspace with _ | ⟨c, t⟩
    · rw [hs1] at hd
      simp at hd
    · rw [hs1] at hd hs
      by_cases hc : c = '-' ∨ c = '+'
      · have hif : (c :: t).head? = some '-' ∨ (c :: t).head? = some '+' := by
          simpa using hc
        rw [if_pos hif, List.tail_cons] at hd
        refine ⟨_, s.takeWhile isspace, [c], t.takeWhile isdigit, t.dropWhile isdigit, ?_, hws, ?_,
          hd, fun c hc => List.mem_takeWhile_imp hc, hrest t, rfl⟩
        · rw [List.takeWhile_append_dropWhile]
          exact hs
        · rcases hc with rfl | rfl
          · exact Or.inr (Or.inl rfl)
          · exact Or.inr (Or.inr rfl)
      · have hif : ¬ ((c :: t).head? = some '-' ∨ (c :: t).head? = some '+') := by
          simpa using hc
        rw [if_neg hif] at hd
        refine ⟨_, s.takeWhile isspace, [], (c :: t).takeWhile isdigit,
          (c :: t).dropWhile isdigit, ?_, hws, Or.inl rfl, hd,
          fun c hc => List.mem_takeWhile_imp hc, hrest (c :: t), rfl⟩
        rw [List.takeWhile_append_dropWhile]
        exact hs

/-- The function `strtol` in terms of the pieces it cuts the string into. -/
theorem strtol_eq (nptr s2 digits : List Char) (neg : Bool)
    (hneg : decide ((nptr.dropWhile isspace).head? = some '-') = neg)
    (hs2 : (if (nptr.dropWhile isspace).head? = some '-' ∨
        (nptr.dropWhile isspace).head? = some '+'
      then (nptr.dropWhile isspace).tail else nptr.dropWhile isspace) = s2)
    (hdig : s2.takeWhile isdigit = digits) (hne : digits ≠ []) :
    strtol nptr =
      if LONG_MAX < (if neg = true then -digits_value digits else digits_value digits) then
        ⟨LONG_MAX, nptr.length - (s2.length - digits.length), true⟩
      else if (if neg = true then -digits_value digits else digits_value digits) < LONG_MIN then
        ⟨LONG_MIN, nptr.length - (s2.length - digits.length), true⟩
      else
        ⟨if neg = true then -digits_value digits else digits_value digits,
          nptr.length - (s2.length - digits.length), false⟩ := by
  subst hneg hs2 hdig
  simp only [strtol, if_neg hne]

/-- The result of `strtol` on a string that begins with a number. -/
theorem strtol_decomp (ws sign digits rest : List Char)
    (hws : ∀ c ∈ ws, isspace c = true) (hsign : sign = [] ∨ sign = ['-'] ∨ sign = ['+'])
    (hne : digits ≠ []) (hd : ∀ c ∈ digits, isdigit c = true)
    (hr : ∀ c, rest.head? = some c → isdigit c = false) :
    strtol (ws ++ (sign ++ (digits ++ rest))) =
      if LONG_MAX < (if sign = ['-'] then -digits_value digits else digits_value digits) then
        ⟨LONG_MAX, ws.length + sign.length + digits.length, true⟩
      else if (if sign = ['-'] then -digits_value digits else digits_value digits) < LONG_MIN then
        ⟨LONG_MIN, ws.length + sign.length + digits.length, true⟩
      else
        ⟨if sign = ['-'] then -digits_value digits else digits_value digits,
          ws.length + sign.length + digits.length, false⟩ := by
  have htr : List.takeWhile isdigit rest = [] := by
    cases rest with
    | nil => rfl
    | cons r rs =>
      have := hr r rfl
      simp [List.takeWhile, this]
  have ht1 : List.takeWhile isdigit (digits ++ rest) = digits := by
    rw [List.takeWhile_append_of_pos hd, htr, List.append_nil]
  obtain ⟨c0, ds, hcons⟩ := List.exists_cons_of_ne_nil hne
  have hc0 : isdigit c0 = true := hd c0 (by rw [hcons]; exact List.mem_cons_self _ _)
  have hsp : ¬ (isspace c0 = true) := by rw [not_isspace_of_isdigit hc0]; simp
  have hsg := not_sign_of_isdigit hc0
  rcases hsign with rfl | rfl | rfl
  · have hdrop : List.dropWhile isspace (ws ++ ([] ++ (digits ++ rest))) = c0 :: (ds ++ rest) := by
      rw [List.nil_append, List.dropWhile_append_of_pos hws, hcons, List.cons_append,
        List.dropWhile_cons_of_neg hsp]
    have hx : c0 :: (ds ++ rest) = digits ++ rest := by rw [hcons]; rfl
    have h := strtol_eq (ws ++ ([] ++ (digits ++ rest))) (digits ++ rest) digits false
      (by rw [hdrop]; simp [hsg.1])
      (by rw [hdrop, if_neg (by simp [hsg.1, hsg.2]), hx])
      ht1 hne
    rw [h]
    have hlen : (ws ++ ([] ++ (digits ++ rest))).length - ((digits ++ rest).length - digits.length) =
        ws.length + ([] : List Char).length + digits.length := by
      simp only [List.length_append, List.length_nil]
      omega
    have hs : ¬ (([] : List Char) = ['-']) := by simp
    simp only [hlen, Bool.false_eq_true, if_false, if_neg hs]
  · have hm : ¬ (isspace '-' = true) := by decide
    have hdrop : List.dropWhile isspace (ws ++ (['-'] ++ (digits ++ rest))) =
        '-' :: (digits ++ rest) := by
      rw [List.dropWhile_append_of_pos hws]
      exact List.dropWhile_cons_of_neg hm
    have h := strtol_eq (ws ++ (['-'] ++ (digits ++ rest))) (digits ++ rest) digits true
      (by rw [hdrop]; simp)
      (by rw [hdrop]; simp)
      ht1 hne
    rw [h]
    have hlen : (ws ++ (['-'] ++ (digits ++ rest))).length -
        ((digits ++ rest).length - digits.length) =
          ws.length + ['-'].length + digits.length := by
      simp only [List.length_append, List.length_cons, List.length_nil]
      omega
    simp only [hlen, if_true]
  · have hm : ¬ (isspace '+' = true) := by decide
    have hdrop : List.dropWhile isspace (ws ++ (['+'] ++ (digits ++ rest))) =
        '+' :: (digits ++ rest) := by
      rw [List.dropWhile_append_of_pos hws]
      exact List.dropWhile_cons_of_neg hm
    have hpm2 : ¬ (('+' : Char) = '-') := by decide
    have h := strtol_eq (ws ++ (['+'] ++ (digits ++ rest))) (digits ++ rest) digits false
      (by rw [hdrop]; simp [hpm2])
      (by rw [hdrop]; simp)
      ht1 hne
    rw [h]
    have hlen : (ws ++ (['+'] ++ (digits ++ rest))).length -
        ((digits ++ rest).length - digits.length) =
          ws.length + ['+'].length + digits.length := by
      simp only [List.length_append, List.length_cons, List.length_nil]
      omega
    have hpm : ¬ ((['+'] : List Char) = ['-']) := by decide
    simp only [hlen, Bool.false_eq_true, if_false, if_neg hpm]

/-- Whenever `strtol` converts something, the string begins with a number, and
the value is that number unless it is out of the range of `long`. -/
theorem strtol_converts (s : List Char) (h : (strtol s).endptr ≠ 0) :
    ∃ v, begins_with_number s v ∧ ((strtol s).erange = false → (strtol s).value = v) := by
  have hnn : ¬ no_leading_number s := fun hn => h (strtol_of_no_leading_number s hn)
  unfold no_leading_number at hnn
  rw [not_not] at hnn
  obtain ⟨v, hb⟩ := hnn
  refine ⟨v, hb, ?_⟩
  obtain ⟨ws, sign, digits, rest, hs, hws, hsign, hne, hd, hr, hv⟩ := hb
  intro he
  have hdec := strtol_decomp ws sign digits rest hws hsign hne hd hr
  rw [← hs, ← hv] at hdec
  by_cases hA : LONG_MAX < v
  · rw [if_pos hA] at hdec
    rw [hdec] at he
    exact absurd he (by simp)
  · rw [if_neg hA] at hdec
    by_cases hB : v < LONG_MIN
    · rw [if_pos hB] at hdec
      rw [hdec] at he
      exact absurd he (by simp)
    · rw [if_neg hB] at hdec
      rw [hdec]

/-- A string that begins with a number in `[1,128]` passes the test of `main`,
with that number as value. -/
theorem accepted_of_begins (s : List Char) (v : Int) (hb : begins_with_number s v)
    (h1 : 1 ≤ v) (h128 : v ≤ 128) : accepted s ∧ (strtol s).value = v := by
  obtain ⟨ws, sign, digits, rest, hs, hws, hsign, hne, hd, hr, hv⟩ := hb
  have hdec := strtol_decomp ws sign digits rest hws hsign hne hd hr
  rw [← hs, ← hv] at hdec
  have hA : ¬ (LONG_MAX < v) := by unfold LONG_MAX; omega
  have hB : ¬ (v < LONG_MIN) := by unfold LONG_MIN; omega
  rw [if_neg hA, if_neg hB] at hdec
  have hlen : digits.length ≠ 0 := fun h0 => hne (List.length_eq_zero.1 h0)
  unfold accepted
  rw [hdec]
  exact ⟨⟨by simp only; omega, rfl, h1, h128⟩, rfl⟩

/-- The strings `main` accepts as thread count are those that begin with a
number in `[1,128]`. -/
theorem accepted_iff (s : List Char) :
    accepted s ↔ ∃ v, begins_with_number s v ∧ 1 ≤ v ∧ v ≤ 128 := by
  constructor
  · rintro ⟨h1, h2, h3, h4⟩
    obtain ⟨v, hv, hval⟩ := strtol_converts s h1
    have := hval h2
    exact ⟨v, hv, by omega, by omega⟩
  · rintro ⟨v, hb, h1, h128⟩
    exact (accepted_of_begins s v hb h1 h128).1

/-- The decimal numerals of `1, .., 128` are runs of digits that `strtol`
converts back to the number. -/
theorem strtol_numeral :
    ∀ n : Nat, n < 129 → 1 ≤ n →
      strtol (Nat.toDigits 10 n) = ⟨n, (Nat.toDigits 10 n).length, false⟩ ∧
      Nat.toDigits 10 n ≠ [] ∧ (Nat.toDigits 10 n).all isdigit = true := by
  decide

/-! ## The shape of a run of `main` -/

theorem spawn_loop_events (env : Env) (n : Int) :
    ∀ l : List Nat,
      (∀ e ∈ (spawn_loop env n l).1,
        (∃ i ∈ l, e = Event.pthread_create (i : Nat) n) ∨ ∃ t, e = Event.err t) ∧
      ((spawn_loop env n l).2 = true →
        (spawn_loop env n l).1 = l.map (fun i : Nat => Event.pthread_create i n)) := by
  intro l
  induction l with
  | nil => simp [spawn_loop]
  | cons i rest ih =>
    by_cases hok : env.pthread_create_ok i = true
    · simp only [spawn_loop, hok, if_true]
      constructor
      · intro e he
        rcases List.mem_cons.1 he with rfl | he
        · exact Or.inl ⟨i, List.mem_cons_self _ _, rfl⟩
        · rcases ih.1 e he with ⟨j, hj, rfl⟩ | h
          · exact Or.inl ⟨j, List.mem_cons_of_mem _ hj, rfl⟩
          · exact Or.inr h
      · intro h
        rw [List.map_cons, ih.2 h]
    · simp only [spawn_loop, hok]
      constructor
      · intro e he
        simp only [Bool.false_eq_true, if_false, List.mem_cons, List.mem_singleton,
          List.not_mem_nil, or_false] at he
        rcases he with rfl | rfl
        · exact Or.inl ⟨i, List.mem_cons_self _ _, rfl⟩
        · exact Or.inr ⟨_, rfl⟩
      · intro h
        simp at h

theorem spawn_loop_ok (env : Env) (n : Int) :
    ∀ l : List Nat, (∀ i ∈ l, env.pthread_create_ok i = true) → (spawn_loop env n l).2 = true := by
  intro l
  induction l with
  | nil => intro _; rfl
  | cons i rest ih =>
    intro h
    have hi := h i (List.mem_cons_self _ _)
    simp only [spawn_loop, hi, if_true]
    exact ih (fun j hj => h j (List.mem_cons_of_mem _ hj))

theorem join_loop_events (env : Env) :
    ∀ l : List Nat, ∀ e ∈ (join_loop env l).1, is_setup e = false ∧ e ≠ Event.barrier_cross := by
  intro l
  induction l with
  | nil => simp [join_loop]
  | cons i rest ih =>
    intro e he
    by_cases hok : env.pthread_join_ok i = true
    · simp only [join_loop, hok, if_true, List.mem_cons] at he
      rcases he with rfl | he
      · exact ⟨rfl, by simp⟩
      · exact ih e he
    · simp only [join_loop, hok, Bool.false_eq_true, if_false, List.mem_cons, List.mem_singleton,
        List.not_mem_nil, or_false] at he
      rcases he with rfl | rfl
      · exact ⟨rfl, by simp⟩
      · exact ⟨rfl, by simp⟩

/-- The four ways a run of `main` can go once the options are accepted: the
pixel allocation fails; the allocation of the worker contexts fails; a
thread creation fails; or all workers are created, `main` crosses the
barrier, and nothing after that allocates, initialises a barrier, creates a
thread or crosses a barrier. -/
theorem main_render_shape (env : Env) (n : Int) :
    (env.malloc_pixels_ok = false ∧
      main_render env n = ⟨[Event.malloc 786432], some 255⟩) ∨
    (env.malloc_pixels_ok = true ∧ env.malloc_tdata_ok = false ∧
      main_render env n =
        ⟨[Event.malloc 786432, Event.malloc (toSizeT (env.sizeof_thread_data * n))], some 255⟩) ∨
    (env.malloc_pixels_ok = true ∧ env.malloc_tdata_ok = true ∧
      (spawn_loop env n (List.range n.toNat)).2 = false ∧
      main_render env n =
        ⟨[Event.malloc 786432, Event.malloc (toSizeT (env.sizeof_thread_data * n)),
            Event.barrier_init (wrapInt32 (n + 1))] ++
          (spawn_loop env n (List.range n.toNat)).1, some 255⟩) ∨
    (env.malloc_pixels_ok = true ∧ env.malloc_tdata_ok = true ∧
      (spawn_loop env n (List.range n.toNat)).2 = true ∧
      ∃ (post : List Event) (status : Option Int),
        main_render env n =
          ⟨[Event.malloc 786432, Event.malloc (toSizeT (env.sizeof_thread_data * n)),
              Event.barrier_init (wrapInt32 (n + 1))] ++
            (spawn_loop env n (List.range n.toNat)).1 ++ Event.barrier_cross :: post, status⟩ ∧
        ∀ e ∈ post, is_setup e = false ∧ e ≠ Event.barrier_cross) := by
  have hsize : toSizeT (ROWS * COLS * 3) = 786432 := by decide
  have hexit : exit_status (-1) = 255 := by decide
  cases h1 : env.malloc_pixels_ok
  · left
    simp [main_render, h1, hsize, hexit]
  · right
    cases h2 : env.malloc_tdata_ok
    · left
      simp [main_render, h1, h2, hsize, hexit]
    · right
      cases h3 : (spawn_loop env n (List.range n.toNat)).2
      · left
        simp [main_render, h1, h2, h3, hsize, hexit]
      · right
        refine ⟨rfl, rfl, rfl, ?_⟩
        have hjoin := join_loop_events env (List.range n.toNat)
        cases h4 : (join_loop env (List.range n.toNat)).2
        · refine ⟨[Event.out ("# Rendering scene, using " ++ String.mk (fmt_d n) ++ " threads\n"),
            Event.clock_gettime] ++ (join_loop env (List.range n.toNat)).1, some 255, ?_, ?_⟩
          · simp [main_render, h1, h2, h3, h4, hsize, hexit]
          · intro e he
            simp only [List.mem_cons, List.mem_append, List.not_mem_nil, or_false] at he
            rcases he with (rfl | rfl) | he
            · exact ⟨rfl, by simp⟩
            · exact ⟨rfl, by simp⟩
            · exact hjoin e he
        · cases h5 : env.fopen_ok
          · refine ⟨[Event.out ("# Rendering scene, using " ++ String.mk (fmt_d n) ++ " threads\n"),
              Event.clock_gettime] ++ (join_loop env (List.range n.toNat)).1 ++
              [Event.clock_gettime, Event.fopen "out.ppm"], none, ?_, ?_⟩
            · simp [main_render, h1, h2, h3, h4, h5, hsize, hexit]
            · intro e he
              simp only [List.mem_cons, List.mem_append, List.not_mem_nil, or_false] at he
              rcases he with ((rfl | rfl) | he) | (rfl | rfl)
              · exact ⟨rfl, by simp⟩
              · exact ⟨rfl, by simp⟩
              · exact hjoin e he
              · exact ⟨rfl, by simp⟩
              · exact ⟨rfl, by simp⟩
          · cases h6 : write_to_ppm ⟨786432, env.pixels⟩ ROWS COLS with
            | none =>
              refine ⟨[Event.out ("# Rendering scene, using " ++ String.mk (fmt_d n) ++
                  " threads\n"),
                Event.clock_gettime] ++ (join_loop env (List.range n.toNat)).1 ++
                [Event.clock_gettime, Event.fopen "out.ppm"], none, ?_, ?_⟩
              · simp [main_render, h1, h2, h3, h4, h5, h6, hsize, hexit]
              · intro e he
                simp only [List.mem_cons, List.mem_append, List.not_mem_nil, or_false] at he
                rcases he with ((rfl | rfl) | he) | (rfl | rfl)
                · exact ⟨rfl, by simp⟩
                · exact ⟨rfl, by simp⟩
                · exact hjoin e he
                · exact ⟨rfl, by simp⟩
                · exact ⟨rfl, by simp⟩
            | some bytes =>
              refine ⟨[Event.out ("# Rendering scene, using " ++ String.mk (fmt_d n) ++
                  " threads\n"),
                Event.clock_gettime] ++ (join_loop env (List.range n.toNat)).1 ++
                [Event.clock_gettime, Event.fopen "out.ppm"] ++
                [Event.file_write bytes, Event.fclose, Event.free, Event.free,
                  Event.out "Done!\n", Event.out_execution_time], some 0, ?_, ?_⟩
              · simp [main_render, h1, h2, h3, h4, h5, h6, hsize, hexit]
              · intro e he
                simp only [List.mem_cons, List.mem_append, List.not_mem_nil, or_false] at he
                rcases he with (((rfl | rfl) | he) | (rfl | rfl)) |
                  (rfl | rfl | rfl | rfl | rfl | rfl)
                · exact ⟨rfl, by simp⟩
                · exact ⟨rfl, by simp⟩
                · exact hjoin e he
                · exact ⟨rfl, by simp⟩
                · exact ⟨rfl, by simp⟩
                · exact ⟨rfl, by simp⟩
                · exact ⟨rfl, by simp⟩
                · exact ⟨rfl, by simp⟩
                · exact ⟨rfl, by simp⟩
                · exact ⟨rfl, by simp⟩
                · exact ⟨rfl, by simp⟩

theorem main_render_setup_events (env : Env) (n : Int) :
    ∀ e ∈ (main_render env n).events, is_setup e = true →
      e = Event.malloc 786432 ∨ e = Event.malloc (toSizeT (env.sizeof_thread_data * n)) ∨
      e = Event.barrier_init (wrapInt32 (n + 1)) ∨
      ∃ i : Nat, i < n.toNat ∧ e = Event.pthread_create i n := by
  intro e he hs
  have hsp := (spawn_loop_events env n (List.range n.toNat)).1
  have hsp' : e ∈ (spawn_loop env n (List.range n.toNat)).1 →
      ∃ i : Nat, i < n.toNat ∧ e = Event.pthread_create i n := by
    intro h
    rcases hsp e h with ⟨i, hi, rfl⟩ | ⟨t, rfl⟩
    · exact ⟨i, List.mem_range.1 hi, rfl⟩
    · simp [is_setup] at hs
  rcases main_render_shape env n with ⟨_, h⟩ | ⟨_, _, h⟩ | ⟨_, _, _, h⟩ | ⟨_, _, _, post, st, h, hpost⟩
  · rw [h] at he
    simp only [List.mem_singleton] at he
    exact Or.inl he
  · rw [h] at he
    simp only [List.mem_cons, List.mem_singleton, List.not_mem_nil, or_false] at he
    rcases he with rfl | rfl
    · exact Or.inl rfl
    · exact Or.inr (Or.inl rfl)
  · rw [h] at he
    simp only [List.mem_cons, List.mem_append, List.not_mem_nil, or_false] at he
    rcases he with (rfl | rfl | rfl) | he
    · exact Or.inl rfl
    · exact Or.inr (Or.inl rfl)
    · exact Or.inr (Or.inr (Or.inl rfl))
    · exact Or.inr (Or.inr (Or.inr (hsp' he)))
  · rw [h] at he
    simp only [List.mem_cons, List.mem_append, List.not_mem_nil, or_false] at he
    rcases he with ((rfl | rfl | rfl) | he) | rfl | he
    · exact Or.inl rfl
    · exact Or.inr (Or.inl rfl)
    · exact Or.inr (Or.inr (Or.inl rfl))
    · exact Or.inr (Or.inr (Or.inr (hsp' he)))
    · simp [is_setup] at hs
    · rw [(hpost e he).1] at hs
      exact absurd hs (by simp)

theorem main_of_exit (env : Env) (options : List GetoptResult) (events : List Event) (code : Int)
    (h : parse_options options 1 = Parsed.exit events code) :
    main env options = ⟨events, some (exit_status code)⟩ := by
  simp [main, h]

theorem main_of_proceed (env : Env) (options : List GetoptResult) (n : Int)
    (h : parse_options options 1 = Parsed.proceed n) :
    main env options = main_render env n := by
  simp [main, h]

/-- C4: for every list of options `getopt_long` returns for the arguments of
`main`, either the option loop exits (and `main` has only written to `stdout`
or `stderr`), or it finishes with `nr_threads` in `[1,128]` and `main` goes on
with that value: every `barrier_init` of the run is for `nr_threads + 1` in
`[2,129]` parties, every `pthread_create` is for an index in `[0, nr_threads)`
with `nr_threads` in `[1,128]`, the worker contexts are allocated for such a
count.  Without a `-t` option the count is the default 1, and with several
the value of the last one is used. -/
theorem validated_worker_count (env : Env) (options : List GetoptResult) :
    ((∃ events code, parse_options options 1 = Parsed.exit events code ∧
        main env options = ⟨events, some (exit_status code)⟩ ∧
        ∀ e ∈ events, (∃ t, e = Event.out t) ∨ ∃ t, e = Event.err t) ∨
      (∃ n : Int, (1 ≤ n ∧ n ≤ 128) ∧ parse_options options 1 = Parsed.proceed n ∧
        main env options = main_render env n)) ∧
    (∀ m, Event.barrier_init m ∈ (main env options).events → 2 ≤ m ∧ m ≤ 129) ∧
    (∀ i m, Event.pthread_create i m ∈ (main env options).events →
      (1 ≤ m ∧ m ≤ 128) ∧ 0 ≤ i ∧ i < m) ∧
    (∀ size, Event.malloc size ∈ (main env options).events →
      size = 786432 ∨
        ∃ n : Int, (1 ≤ n ∧ n ≤ 128) ∧ size = toSizeT (env.sizeof_thread_data * n)) ∧
    (∀ n, parse_options options 1 = Parsed.proceed n → (∀ o ∈ options, o.ch ≠ 116) → n = 1) ∧
    (∀ n pre o post, parse_options options 1 = Parsed.proceed n → options = pre ++ o :: post →
      o.ch = 116 → (∀ q ∈ post, q.ch ≠ 116) → n = (strtol o.optarg).value) := by
  have key : ∀ e ∈ (main env options).events, is_setup e = true →
      ∃ n : Int, (1 ≤ n ∧ n ≤ 128) ∧
        (e = Event.malloc 786432 ∨ e = Event.malloc (toSizeT (env.sizeof_thread_data * n)) ∨
          e = Event.barrier_init (n + 1) ∨
          ∃ i : Nat, (i : Int) < n ∧ e = Event.pthread_create i n) := by
    intro e he hs
    cases hp : parse_options options 1 with
    | exit events code =>
      rw [main_of_exit env options events code hp] at he
      rcases (parse_options_exit options 1 events code hp).1 e he with ⟨t, rfl⟩ | ⟨t, rfl⟩ <;>
        simp [is_setup] at hs
    | proceed n =>
      have hr := parse_options_range options n hp
      rw [main_of_proceed env options n hp] at he
      have hw : wrapInt32 (n + 1) = n + 1 := wrapInt32_eq (by omega) (by omega)
      refine ⟨n, hr, ?_⟩
      rcases main_render_setup_events env n e he hs with h | h | h | ⟨i, hi, h⟩
      · exact Or.inl h
      · exact Or.inr (Or.inl h)
      · exact Or.inr (Or.inr (Or.inl (by rw [h, hw])))
      · exact Or.inr (Or.inr (Or.inr ⟨i, by omega, h⟩))
  refine ⟨?_, ?_, ?_, ?_, ?_, ?_⟩
  · cases hp : parse_options options 1 with
    | exit events code =>
      exact Or.inl ⟨events, code, rfl, main_of_exit env options events code hp,
        (parse_options_exit options 1 events code hp).1⟩
    | proceed n =>
      exact Or.inr ⟨n, parse_options_range options n hp, rfl, main_of_proceed env options n hp⟩
  · intro m hm
    obtain ⟨n, hn, h | h | h | ⟨i, _, h⟩⟩ := key _ hm rfl
    · exact absurd h (by simp)
    · exact absurd h (by simp)
    · simp only [Event.barrier_init.injEq] at h
      omega
    · exact absurd h (by simp)
  · intro i m hm
    obtain ⟨n, hn, h | h | h | ⟨j, hj, h⟩⟩ := key _ hm rfl
    · exact absurd h (by simp)
    · exact absurd h (by simp)
    · exact absurd h (by simp)
    · simp only [Event.pthread_create.injEq] at h
      obtain ⟨rfl, rfl⟩ := h
      exact ⟨hn, Int.natCast_nonneg j, hj⟩
  · intro size hm
    obtain ⟨n, hn, h | h | h | ⟨i, _, h⟩⟩ := key _ hm rfl
    · simp only [Event.malloc.injEq] at h
      exact Or.inl h
    · simp only [Event.malloc.injEq] at h
      exact Or.inr ⟨n, hn, h⟩
    · exact absurd h (by simp)
    · exact absurd h (by simp)
  · intro n hp hno
    obtain ⟨hall, hn⟩ := parse_options_proceed options 1 n hp
    cases options with
    | nil => simpa using hn
    | cons o rest => exact absurd (hall o (List.mem_cons_self _ _)).1 (hno o (List.mem_cons_self _ _))
  · intro n pre o post hp hopt _ hpost
    obtain ⟨hall, hn⟩ := parse_options_proceed options 1 n hp
    cases post with
    | nil =>
      rw [hopt] at hn
      simpa using hn
    | cons q post =>
      have hq : q ∈ options := by rw [hopt]; simp
      exact absurd (hall q hq).1 (hpost q (List.mem_cons_self _ _))

/-- C6 (amended): when the options before it are accepted, the argument of
`-t` lets the option loop go on exactly when the string begins with a number
in `[1,128]` (white space, optional sign, digits, then the end of the string
or any character that is not a digit), and `nr_threads` becomes that number;
the text after the digits is not examined, so the numeral of every `n` in
`[1,128]`, alone or followed by anything that does not start with a digit, is
accepted as `n`.  Every other argument (no number at the start, or a number
outside `[1,128]`) makes `main` exit with status 255 after one diagnostic on
`stderr` and nothing else: no buffer, no barrier, no thread, no rendering. -/
theorem thread_count_parsing (env : Env) (pre : List GetoptResult) (n1 : Int)
    (hpre : parse_options pre 1 = Parsed.proceed n1) :
    (∀ optarg v, begins_with_number optarg v → 1 ≤ v → v ≤ 128 →
      (∀ post, parse_options (pre ++ ⟨116, optarg⟩ :: post) 1 = parse_options post v) ∧
      main env (pre ++ [⟨116, optarg⟩]) = main_render env v) ∧
    (∀ optarg, ¬ (∃ v, begins_with_number optarg v ∧ 1 ≤ v ∧ v ≤ 128) →
      ∀ post, ∃ msg, main env (pre ++ ⟨116, optarg⟩ :: post) = ⟨[Event.err msg], some 255⟩) ∧
    (∀ (n : Nat) (rest : List Char), 1 ≤ n → n ≤ 128 →
      (∀ c, rest.head? = some c → isdigit c = false) →
      begins_with_number (Nat.toDigits 10 n ++ rest) n ∧
      main env (pre ++ [⟨116, Nat.toDigits 10 n ++ rest⟩]) = main_render env n) := by
  have hacc : ∀ optarg post, accepted optarg →
      parse_options (pre ++ ⟨116, optarg⟩ :: post) 1 =
        parse_options post (strtol optarg).value := by
    intro optarg post h
    rw [parse_options_append, hpre]
    exact parse_t_accepted optarg post n1 h
  have hgo : ∀ optarg v, begins_with_number optarg v → 1 ≤ v → v ≤ 128 →
      (∀ post, parse_options (pre ++ ⟨116, optarg⟩ :: post) 1 = parse_options post v) ∧
      main env (pre ++ [⟨116, optarg⟩]) = main_render env v := by
    intro optarg v hb h1 h128
    obtain ⟨hA, hval⟩ := accepted_of_begins optarg v hb h1 h128
    refine ⟨fun post => by rw [hacc optarg post hA, hval], ?_⟩
    exact main_of_proceed env _ _ (by rw [hacc optarg [] hA, hval]; rfl)
  refine ⟨hgo, ?_, ?_⟩
  · intro optarg hno post
    have hrej : ¬ accepted optarg := by
      intro hA
      exact hno ((accepted_iff optarg).1 hA)
    obtain ⟨msg, hmsg⟩ := parse_t_rejected optarg post n1 hrej
    refine ⟨msg, ?_⟩
    rw [← exit_status_minus_one]
    apply main_of_exit
    rw [parse_options_append, hpre]
    exact hmsg
  · intro n rest h1 h128 hrest
    obtain ⟨hs, hne, hall⟩ := strtol_numeral n (by omega) h1
    have hd : ∀ c ∈ Nat.toDigits 10 n, isdigit c = true := List.all_eq_true.1 hall
    have hdec := strtol_decomp [] [] (Nat.toDigits 10 n) [] (by simp) (Or.inl rfl) hne hd
      (by simp)
    simp only [List.nil_append, List.append_nil] at hdec
    have hnil : ¬ (([] : List Char) = ['-']) := by simp
    rw [hs, if_neg hnil] at hdec
    have hval : digits_value (Nat.toDigits 10 n) = (n : Int) := by
      by_cases hA : LONG_MAX < digits_value (Nat.toDigits 10 n)
      · rw [if_pos hA] at hdec
        exact absurd (congrArg StrtolResult.erange hdec) (by simp)
      · rw [if_neg hA] at hdec
        by_cases hB : digits_value (Nat.toDigits 10 n) < LONG_MIN
        · rw [if_pos hB] at hdec
          exact absurd (congrArg StrtolResult.erange hdec) (by simp)
        · rw [if_neg hB] at hdec
          exact (congrArg StrtolResult.value hdec).symm
    have hb : begins_with_number (Nat.toDigits 10 n ++ rest) n :=
      ⟨[], [], Nat.toDigits 10 n, rest, rfl, by simp, Or.inl rfl, hne, hd, hrest, by
        rw [if_neg hnil, hval]⟩
    exact ⟨hb, (hgo _ _ hb (by exact_mod_cast h1) (by exact_mod_cast h128)).2⟩

/-- C6, instance: `-t` as the first option. -/
theorem thread_count_parsing_witness :
    (∀ optarg v, begins_with_number optarg v → 1 ≤ v → v ≤ 128 →
      (∀ post, parse_options ([] ++ ⟨116, optarg⟩ :: post) 1 = parse_options post v) ∧
      main env_ok ([] ++ [⟨116, optarg⟩]) = main_render env_ok v) ∧
    (∀ optarg, ¬ (∃ v, begins_with_number optarg v ∧ 1 ≤ v ∧ v ≤ 128) →
      ∀ post, ∃ msg, main env_ok ([] ++ ⟨116, optarg⟩ :: post) = ⟨[Event.err msg], some 255⟩) ∧
    (∀ (n : Nat) (rest : List Char), 1 ≤ n → n ≤ 128 →
      (∀ c, rest.head? = some c → isdigit c = false) →
      begins_with_number (Nat.toDigits 10 n ++ rest) n ∧
      main env_ok ([] ++ [⟨116, Nat.toDigits 10 n ++ rest⟩]) = main_render env_ok n) :=
  thread_count_parsing env_ok [] 1 rfl

/-- C6 as stated fails: the argument `4x` is not an integer, yet `-t 4x` is
accepted: `strtol` converts the `4` and `main` never looks at the `x`; the run
goes on with four threads (allocation, barrier for five parties, four
workers) and ends with status 0. -/
theorem thread_count_parsing_counterexample :
    parse_options [⟨116, "4x".data⟩] 1 = Parsed.proceed 4 ∧
    (main env_ok [⟨116, "4x".data⟩]).status = some 0 ∧
    (main env_ok [⟨116, "4x".data⟩]).events.take 8 =
      [Event.malloc 786432, Event.malloc 512, Event.barrier_init 5,
        Event.pthread_create 0 4, Event.pthread_create 1 4, Event.pthread_create 2 4,
        Event.pthread_create 3 4, Event.barrier_cross] := by
  decide

/-! ## The barrier -/

theorem crossings_map_raytracing (calls : List RaytracingCall) :
    crossings (calls.map Event.raytracing) = 0 := by
  unfold crossings
  rw [List.count_eq_zero]
  intro h
  obtain ⟨c, _, hc⟩ := List.mem_map.1 h
  exact absurd hc (by simp)

theorem crossings_of_no_cross (events : List Event)
    (h : ∀ e ∈ events, e ≠ Event.barrier_cross) : crossings events = 0 := by
  unfold crossings
  rw [List.count_eq_zero]
  intro hmem
  exact h _ hmem rfl

theorem crossings_append (l₁ l₂ : List Event) :
    crossings (l₁ ++ l₂) = crossings l₁ + crossings l₂ := by
  unfold crossings
  exact List.count_append _ _ _

/-- C8: in a run of `main` whose options are accepted with thread count `n`
(in `[1,128]`), whose allocations succeed and whose `n` thread creations
succeed: the barrier is initialised once, for `n + 1` parties, before any
thread is created; `main` crosses it exactly once, right after creating the
`n` workers; every worker crosses it exactly once, as the first thing it does,
before any `raytracing` call; so the crossings of the run number `n + 1`, the
configured party count. -/
theorem barrier_parties (env : Env) (options : List GetoptResult) (n : Int)
    (hparse : parse_options options 1 = Parsed.proceed n)
    (hpx : env.malloc_pixels_ok = true) (htd : env.malloc_tdata_ok = true)
    (hcreate : ∀ i : Nat, (i : Int) < n → env.pthread_create_ok i = true) :
    (1 ≤ n ∧ n ≤ 128) ∧
    (∃ post : List Event,
      (main env options).events =
        [Event.malloc 786432, Event.malloc (toSizeT (env.sizeof_thread_data * n)),
          Event.barrier_init (n + 1)] ++
        (List.range n.toNat).map (fun i : Nat => Event.pthread_create i n) ++
        Event.barrier_cross :: post ∧
      crossings post = 0 ∧ ∀ e ∈ post, is_setup e = false) ∧
    crossings (main env options).events = 1 ∧
    (∀ i fuel : Nat, (i : Int) < n →
      (∃ calls : List RaytracingCall,
        worker_events n fuel i = Event.barrier_cross :: calls.map Event.raytracing) ∧
      crossings (worker_events n fuel i) = 1) ∧
    (∀ fuel : Nat,
      ((crossings (main env options).events +
        (Finset.range n.toNat).sum (fun i => crossings (worker_events n fuel i)) : Nat) : Int) =
        n + 1) := by
  have hr := parse_options_range options n hparse
  have hw : wrapInt32 (n + 1) = n + 1 := wrapInt32_eq (by omega) (by omega)
  have hsp : (spawn_loop env n (List.range n.toNat)).2 = true := by
    apply spawn_loop_ok
    intro i hi
    rw [List.mem_range] at hi
    exact hcreate i (by omega)
  have hworker : ∀ i fuel : Nat,
      (∃ calls : List RaytracingCall,
        worker_events n fuel i = Event.barrier_cross :: calls.map Event.raytracing) ∧
      crossings (worker_events n fuel i) = 1 := by
    intro i fuel
    refine ⟨⟨_, rfl⟩, ?_⟩
    show crossings (Event.barrier_cross :: _) = 1
    have := crossings_map_raytracing (render_loop ROWS n fuel i).1
    unfold crossings at this ⊢
    rw [List.count_cons_self, this]
  rcases main_render_shape env n with ⟨h, _⟩ | ⟨_, h, _⟩ | ⟨_, _, h, _⟩ | ⟨_, _, _, post, st, h, hpost⟩
  · rw [hpx] at h; exact absurd h (by simp)
  · rw [htd] at h; exact absurd h (by simp)
  · rw [hsp] at h; exact absurd h (by simp)
  · have hev : (main env options).events =
        [Event.malloc 786432, Event.malloc (toSizeT (env.sizeof_thread_data * n)),
          Event.barrier_init (n + 1)] ++
        (List.range n.toNat).map (fun i : Nat => Event.pthread_create i n) ++
        Event.barrier_cross :: post := by
      rw [main_of_proceed env options n hparse, h, hw,
        (spawn_loop_events env n (List.range n.toNat)).2 hsp]
    have hpost0 : crossings post = 0 := crossings_of_no_cross post (fun e he => (hpost e he).2)
    have hmain1 : crossings (main env options).events = 1 := by
      rw [hev, crossings_append, crossings_append]
      have h1 : crossings [Event.malloc 786432,
          Event.malloc (toSizeT (env.sizeof_thread_data * n)), Event.barrier_init (n + 1)] = 0 := by
        apply crossings_of_no_cross
        intro e he
        simp only [List.mem_cons, List.mem_singleton, List.not_mem_nil, or_false] at he
        rcases he with rfl | rfl | rfl <;> simp
      have h2 : crossings ((List.range n.toNat).map (fun i : Nat => Event.pthread_create i n)) =
          0 := by
        apply crossings_of_no_cross
        intro e he
        obtain ⟨i, _, rfl⟩ := List.mem_map.1 he
        simp
      have h3 : crossings (Event.barrier_cross :: post) = 1 := by
        unfold crossings at hpost0 ⊢
        rw [List.count_cons_self, hpost0]
      rw [h1, h2, h3]
    refine ⟨hr, ⟨post, hev, hpost0, fun e he => (hpost e he).1⟩, hmain1,
      fun i fuel _ => hworker i fuel, ?_⟩
    intro fuel
    rw [hmain1, Finset.sum_congr rfl (fun i _ => (hworker i fuel).2)]
    simp only [Finset.sum_const, Finset.card_range, smul_eq_mul, mul_one]
    push_cast
    rw [Int.toNat_of_nonneg (by omega)]
    ring

/-- C8, instance: `-t 3` with everything succeeding. -/
theorem barrier_parties_witness :
    (1 ≤ (3 : Int) ∧ (3 : Int) ≤ 128) ∧
    (∃ post : List Event,
      (main env_ok [⟨116, "3".data⟩]).events =
        [Event.malloc 786432, Event.malloc (toSizeT (env_ok.sizeof_thread_data * 3)),
          Event.barrier_init (3 + 1)] ++
        (List.range (3 : Int).toNat).map (fun i : Nat => Event.pthread_create i 3) ++
        Event.barrier_cross :: post ∧
      crossings post = 0 ∧ ∀ e ∈ post, is_setup e = false) ∧
    crossings (main env_ok [⟨116, "3".data⟩]).events = 1 ∧
    (∀ i fuel : Nat, (i : Int) < 3 →
      (∃ calls : List RaytracingCall,
        worker_events 3 fuel i = Event.barrier_cross :: calls.map Event.raytracing) ∧
      crossings (worker_events 3 fuel i) = 1) ∧
    (∀ fuel : Nat,
      ((crossings (main env_ok [⟨116, "3".data⟩]).events +
        (Finset.range (3 : Int).toNat).sum (fun i => crossings (worker_events 3 fuel i)) : Nat) :
          Int) = 3 + 1) :=
  barrier_parties env_ok [⟨116, "3".data⟩] 3 (by decide) rfl rfl (fun _ _ => rfl)

/-! ## The image file -/

theorem join_loop_ok (env : Env) :
    ∀ l : List Nat, (∀ i ∈ l, env.pthread_join_ok i = true) →
      join_loop env l = (l.map (fun i : Nat => Event.pthread_join i), true) := by
  intro l
  induction l with
  | nil => intro _; rfl
  | cons i rest ih =>
    intro h
    have hi := h i (List.mem_cons_self _ _)
    simp only [join_loop, hi, if_true, ih (fun j hj => h j (List.mem_cons_of_mem _ hj))]
    rfl

theorem ppm_header_eq (w h : Int) :
    ppm_header w h =
      text_bytes ("P6\n".data ++ fmt_d w ++ " ".data ++ fmt_d h ++ "\n255\n".data) := by
  unfold ppm_header
  have h255 : fmt_d 255 = "255".data := by decide
  rw [h255]
  simp [List.append_assoc]

/-- The count `height * width * 3` when it fits in an `int`. -/
theorem byte_count_exact (w h : Int) (h0 : 0 ≤ w * h * 3) (hmax : w * h * 3 < 2147483648) :
    toSizeT (wrapInt32 (wrapInt32 (h * w) * 3)) = (w * h * 3).toNat := by
  have hc : h * w = w * h := mul_comm h w
  rw [hc]
  generalize w * h = p at h0 hmax
  have h1 : wrapInt32 p = p := wrapInt32_eq (by omega) (by omega)
  have h2 : wrapInt32 (p * 3) = p * 3 := wrapInt32_eq (by omega) (by omega)
  rw [h1, h2]
  unfold toSizeT
  congr 1
  omega

theorem write_to_ppm_exact (pixels : Memory) (w h : Int)
    (hsize : (pixels.size : Int) = w * h * 3) (hmax : w * h * 3 < 2147483648) :
    write_to_ppm pixels w h =
      some (text_bytes ("P6\n".data ++ fmt_d w ++ " ".data ++ fmt_d h ++ "\n255\n".data) ++
        (List.range pixels.size).map pixels.data) := by
  have h0 : 0 ≤ w * h * 3 := by rw [← hsize]; exact Int.natCast_nonneg _
  have hcount : toSizeT (wrapInt32 (wrapInt32 (h * w) * 3)) = pixels.size := by
    rw [byte_count_exact w h h0 hmax, ← hsize]
    exact Int.toNat_natCast _
  simp only [write_to_ppm, hcount, le_refl, if_true, ppm_header_eq]

/-- C7 (amended): for every width `w` and height `h` whose byte count
`w * h * 3` fits in an `int` and every pixel buffer of `w * h * 3` bytes,
`write_to_ppm` emits the header `P6\n<w> <h>\n255\n` (`w`, `h` in decimal)
followed by exactly the `w * h * 3` bytes of the buffer in order, and nothing
else.  In a run of `main` that gets as far as the output, the only write to
the file is that header with `512 512` (first the width `COLS`, then the
height `ROWS`, as numbers) followed by the `ROWS * COLS * 3 = 786432` bytes of
the buffer, which is the size that was allocated. -/
theorem image_output (pixels : Memory) (w h : Int)
    (hsize : (pixels.size : Int) = w * h * 3) (hmax : w * h * 3 < 2147483648)
    (env : Env) (options : List GetoptResult) (n : Int)
    (hparse : parse_options options 1 = Parsed.proceed n)
    (hpx : env.malloc_pixels_ok = true) (htd : env.malloc_tdata_ok = true)
    (hcreate : ∀ i : Nat, (i : Int) < n → env.pthread_create_ok i = true)
    (hjoin : ∀ i : Nat, (i : Int) < n → env.pthread_join_ok i = true)
    (hopen : env.fopen_ok = true) :
    write_to_ppm pixels w h =
      some (text_bytes ("P6\n".data ++ fmt_d w ++ " ".data ++ fmt_d h ++ "\n255\n".data) ++
        (List.range pixels.size).map pixels.data) ∧
    (∃ pre : List Event,
      (main env options).events =
        Event.malloc 786432 :: pre ++
          [Event.fopen "out.ppm",
            Event.file_write (text_bytes "P6\n512 512\n255\n".data ++
              (List.range 786432).map env.pixels),
            Event.fclose, Event.free, Event.free, Event.out "Done!\n",
            Event.out_execution_time] ∧
      (∀ e ∈ pre, (∀ bytes, e ≠ Event.file_write bytes) ∧ ∀ name, e ≠ Event.fopen name)) ∧
    (main env options).status = some 0 ∧
    ((786432 : Int) = ROWS * COLS * 3 ∧ fmt_d COLS = "512".data ∧ fmt_d ROWS = "512".data) := by
  refine ⟨write_to_ppm_exact pixels w h hsize hmax, ?_, ?_, by decide⟩
  all_goals
    have hnr := parse_options_range options n hparse
    have hsp : (spawn_loop env n (List.range n.toNat)).2 = true := by
      apply spawn_loop_ok
      intro i hi
      rw [List.mem_range] at hi
      exact hcreate i (by omega)
    have hsp1 := (spawn_loop_events env n (List.range n.toNat)).2 hsp
    have hjn : join_loop env (List.range n.toNat) =
        ((List.range n.toNat).map (fun i : Nat => Event.pthread_join i), true) := by
      apply join_loop_ok
      intro i hi
      rw [List.mem_range] at hi
      exact hjoin i (by omega)
    have hwr : write_to_ppm ⟨786432, env.pixels⟩ ROWS COLS =
        some (text_bytes "P6\n512 512\n255\n".data ++ (List.range 786432).map env.pixels) := by
      rw [write_to_ppm_exact ⟨786432, env.pixels⟩ ROWS COLS
        (show ((786432 : Nat) : Int) = ROWS * COLS * 3 by decide) (by decide)]
      rfl
    have hsz : toSizeT (ROWS * COLS * 3) = 786432 := by decide
    rw [main_of_proceed env options n hparse]
  · refine ⟨[Event.malloc (toSizeT (env.sizeof_thread_data * n)),
        Event.barrier_init (wrapInt32 (n + 1))] ++
        (List.range n.toNat).map (fun i : Nat => Event.pthread_create i n) ++
        [Event.barrier_cross,
          Event.out ("# Rendering scene, using " ++ String.mk (fmt_d n) ++ " threads\n"),
          Event.clock_gettime] ++
        (List.range n.toNat).map (fun i : Nat => Event.pthread_join i) ++
        [Event.clock_gettime], ?_, ?_⟩
    · simp [main_render, hpx, htd, hsp, hsp1, hjn, hopen, hwr, hsz]
    · intro e he
      simp only [List.mem_cons, List.mem_append, List.mem_map, List.not_mem_nil, or_false] at he
      rcases he with ((((rfl | rfl) | ⟨i, _, rfl⟩) | (rfl | rfl | rfl)) | ⟨i, _, rfl⟩) | rfl <;>
        simp
  · simp [main_render, hpx, htd, hsp, hsp1, hjn, hopen, hwr, hsz]

/-- C7, instance: a 2 by 1 image, and the run `-t 2` with everything succeeding. -/
theorem image_output_witness :
    write_to_ppm ⟨6, fun i => i⟩ 2 1 =
      some (text_bytes ("P6\n".data ++ fmt_d 2 ++ " ".data ++ fmt_d 1 ++ "\n255\n".data) ++
        (List.range (Memory.mk 6 (fun i => i)).size).map (Memory.mk 6 (fun i => i)).data) ∧
    (∃ pre : List Event,
      (main env_ok [⟨116, "2".data⟩]).events =
        Event.malloc 786432 :: pre ++
          [Event.fopen "out.ppm",
            Event.file_write (text_bytes "P6\n512 512\n255\n".data ++
              (List.range 786432).map env_ok.pixels),
            Event.fclose, Event.free, Event.free, Event.out "Done!\n",
            Event.out_execution_time] ∧
      (∀ e ∈ pre, (∀ bytes, e ≠ Event.file_write bytes) ∧ ∀ name, e ≠ Event.fopen name)) ∧
    (main env_ok [⟨116, "2".data⟩]).status = some 0 ∧
    ((786432 : Int) = ROWS * COLS * 3 ∧ fmt_d COLS = "512".data ∧ fmt_d ROWS = "512".data) :=
  image_output ⟨6, fun i => i⟩ 2 1 (by decide) (by decide) env_ok [⟨116, "2".data⟩] 2
    (by decide) rfl rfl (fun _ _ => rfl) (fun _ _ => rfl) rfl

/-- C7 as stated fails: for `w = h = 65536` the count `h * w * 3` wraps around
to `0` in `int`, and `write_to_ppm` given a buffer of `w * h * 3 = 12884901888`
bytes emits the 19 bytes of the header and none of the buffer. -/
theorem image_output_counterexample :
    write_to_ppm ⟨12884901888, fun _ => 0⟩ 65536 65536 =
        some (text_bytes "P6\n65536 65536\n255\n".data) ∧
      ((12884901888 : Nat) : Int) = 65536 * 65536 * 3 := by
  decide

/-! ## The time difference -/

/-- C10 (amended): for timespecs `t1`, `t2` with `tv_nsec` in `[0, 10^9)` whose
difference of seconds, less the borrow, fits in `time_t` (64 bit signed), the
`diff` computed by `diff_in_second` has `tv_nsec` in `[0, 10^9)` and
`diff.tv_sec * 10^9 + diff.tv_nsec` is exactly the difference of the two times
in nanoseconds; so `diff.tv_sec ≥ 0` when `t2` is not earlier than `t1`. -/
theorem time_difference (t1 t2 : timespec)
    (h1 : 0 ≤ t1.tv_nsec ∧ t1.tv_nsec < 1000000000)
    (h2 : 0 ≤ t2.tv_nsec ∧ t2.tv_nsec < 1000000000)
    (hrep : -9223372036854775808 ≤
        t2.tv_sec - t1.tv_sec - (if t2.tv_nsec < t1.tv_nsec then 1 else 0) ∧
      t2.tv_sec - t1.tv_sec - (if t2.tv_nsec < t1.tv_nsec then 1 else 0) <
        9223372036854775808) :
    (0 ≤ (diff_in_second t1 t2).tv_nsec ∧
      (diff_in_second t1 t2).tv_nsec < 1000000000) ∧
    (diff_in_second t1 t2).tv_sec * 1000000000 + (diff_in_second t1 t2).tv_nsec =
      (t2.tv_sec * 1000000000 + t2.tv_nsec) - (t1.tv_sec * 1000000000 + t1.tv_nsec) ∧
    (t1.tv_sec * 1000000000 + t1.tv_nsec ≤ t2.tv_sec * 1000000000 + t2.tv_nsec →
      0 ≤ (diff_in_second t1 t2).tv_sec) := by
  obtain ⟨s1, n1⟩ := t1
  obtain ⟨s2, n2⟩ := t2
  simp only at h1 h2 hrep
  have hn : wrapInt64 (n2 - n1) = n2 - n1 := by unfold wrapInt64; omega
  by_cases hb : n2 < n1
  · rw [if_pos hb] at hrep
    have hlt : n2 - n1 < 0 := by omega
    have hs : wrapInt64 (wrapInt64 (s2 - s1) - 1) = s2 - s1 - 1 := by unfold wrapInt64; omega
    have hn' : wrapInt64 (n2 - n1 + 1000000000) = n2 - n1 + 1000000000 := by
      unfold wrapInt64; omega
    simp only [diff_in_second, hn, hlt, if_true, hs, hn']
    refine ⟨by omega, by ring, ?_⟩
    intro h
    omega
  · rw [if_neg hb] at hrep
    have hlt : ¬ (n2 - n1 < 0) := by omega
    have hs : wrapInt64 (s2 - s1) = s2 - s1 := by unfold wrapInt64; omega
    simp only [diff_in_second, hn, hlt, if_false, hs]
    refine ⟨by omega, by ring, ?_⟩
    intro h
    omega

/-- C10, instance: from 5.999999999 s to 7.000000001 s. -/
theorem time_difference_witness :
    (0 ≤ (diff_in_second ⟨5, 999999999⟩ ⟨7, 1⟩).tv_nsec ∧
      (diff_in_second ⟨5, 999999999⟩ ⟨7, 1⟩).tv_nsec < 1000000000) ∧
    (diff_in_second ⟨5, 999999999⟩ ⟨7, 1⟩).tv_sec * 1000000000 +
        (diff_in_second ⟨5, 999999999⟩ ⟨7, 1⟩).tv_nsec =
      ((7 : Int) * 1000000000 + 1) - ((5 : Int) * 1000000000 + 999999999) ∧
    ((5 : Int) * 1000000000 + 999999999 ≤ (7 : Int) * 1000000000 + 1 →
      0 ≤ (diff_in_second ⟨5, 999999999⟩ ⟨7, 1⟩).tv_sec) :=
  time_difference ⟨5, 999999999⟩ ⟨7, 1⟩ (by decide) (by decide) (by decide)

/-- C10 as stated fails: with `t1 = (-1 s, 0 ns)` and `t2 = (2^63 - 1 s, 0 ns)`
the subtraction of the seconds wraps around: `diff.tv_sec = -2^63`, which is
negative although `t2` is later than `t1`, and `diff` is not the difference
of the two times. -/
theorem time_difference_counterexample :
    diff_in_second ⟨-1, 0⟩ ⟨9223372036854775807, 0⟩ = ⟨-9223372036854775808, 0⟩ ∧
    (-9223372036854775808 : Int) * 1000000000 + 0 ≠
      ((9223372036854775807 : Int) * 1000000000 + 0) - ((-1 : Int) * 1000000000 + 0) ∧
    ((-1 : Int) * 1000000000 + 0 ≤ (9223372036854775807 : Int) * 1000000000 + 0) := by
  decide

end Raytracing
